import Mathlib

/-!
Shallow embedding of `texteditpad.py` (the scrolling `Textbox` widget).

The source is Python 2.7: `/` on integers is floor division and `%` has the
sign of the divisor.  Every divisor in the program is the positive display
width, and for a positive divisor Lean's `Int` `/` (`Int.ediv`) and `%`
(`Int.emod`) agree with Python's floor division and modulo, so they are used
directly.

Python list/string indexing and slicing follow Python semantics: a negative
index counts from the end.  An index access that Python would reject with an
`IndexError` (out of range on both sides) is modelled as a no-op update /
default read; no claim proved below depends on such a state.

The curses window itself (the character grid) is not part of the model: the
drawing calls (`addch`, `redraw_vlines`, `clear_line`) only paint the screen
and never feed back into the editor state.  The single exception is
`win.getyx()` inside `_insert_printable_char`; the program maintains the
window cursor equal to `self.ppos` at every point where `getyx` is read
(`win.move(*self.ppos)` ends every operation, and `scroll` ends with
`win.move` before the read), so `getyx` is modelled as reading `ppos`.
`curses.beep()` is modelled as a boolean output.  The fields `self.nlines`
and `self.lastcmd` are written by the source but never read back, so they
are omitted from the state.
-/

namespace Texteditpad

/-- A logical line: characters with no embedded newline. -/
abbrev Line := List Char

/-- Length of a list as an integer (Python `len`). -/
def llen (l : List α) : Int := (l.length : Int)

/-- Resolve a Python index against a list of length `n`:
nonnegative indices address from the front, negative from the end;
`none` when Python would raise `IndexError`. -/
def pyResolve (n : Nat) (i : Int) : Option Nat :=
  if 0 ≤ i then (if i < (n : Int) then some i.toNat else none)
  else (if 0 ≤ i + (n : Int) then some (i + (n : Int)).toNat else none)

/-- Python `xs[i]` with a default where Python would raise. -/
def pyGet (xs : List α) (i : Int) (d : α) : α :=
  match pyResolve xs.length i with
  | some j => xs.getD j d
  | none => d

/-- Python `xs[i] = v` (no-op where Python would raise). -/
def pySet (xs : List α) (i : Int) (v : α) : List α :=
  match pyResolve xs.length i with
  | some j => xs.set j v
  | none => xs

/-- Python `xs.pop(i)` (no-op where Python would raise). -/
def pyPop (xs : List α) (i : Int) : List α :=
  match pyResolve xs.length i with
  | some j => xs.eraseIdx j
  | none => xs

/-- Python `xs.insert(i, v)`: the index is clamped into `[0, len]`. -/
def pyInsertAt (xs : List α) (i : Int) (v : α) : List α :=
  let j : Nat := if 0 ≤ i then min i.toNat xs.length else xs.length - (-i).toNat
  xs.take j ++ v :: xs.drop j

/-- Python slice `xs[i:]`. -/
def pySliceFrom (xs : List α) (i : Int) : List α :=
  if 0 ≤ i then xs.drop i.toNat else xs.drop (xs.length - min xs.length (-i).toNat)

/-- Python slice `xs[:i]`. -/
def pySliceTo (xs : List α) (i : Int) : List α :=
  if 0 ≤ i then xs.take i.toNat else xs.take (xs.length - min xs.length (-i).toNat)

/-- Per-instance configuration fixed at construction: viewport geometry,
scroll step and the resize flag.  `width = maxx + 1`, `height = maxy + 1`
exactly as in `__init__`. -/
structure Cfg where
  width : Int
  height : Int
  n_sc : Int
  resize_mode : Bool
deriving DecidableEq, Repr

def Cfg.maxx (c : Cfg) : Int := c.width - 1

def Cfg.maxy (c : Cfg) : Int := c.height - 1

/-- The mutable editor state of a `Textbox`:
`text` the logical lines, `lcount` the per-line wrap-row counts,
`vpos` the virtual cursor, `ppos` the physical cursor,
`vptl` the virtual position of the viewport's top-left corner. -/
structure TBState where
  text : List Line
  lcount : List Int
  vpos : Int × Int
  ppos : Int × Int
  vptl : Int × Int
deriving DecidableEq, Repr

/-- `len(self.text[i]) / self.width + 1`: the wrap-row count the source
stores for a line (Python 2 floor division). -/
def rows (w : Int) (l : Line) : Int := llen l / w + 1

/-- `self.text[i]` as a line. -/
def lineAt (s : TBState) (i : Int) : Line := pyGet s.text i []

/-- `Textbox.scroll(n)`: slide the viewport anchor by `n` display rows and
shift the physical cursor by `-n` (redraw omitted: display only). -/
def scroll (cfg : Cfg) (n : Int) (s : TBState) : TBState :=
  let t0 := s.vptl.1
  let t1 := s.vptl.2
  let vptl' :=
    if t1 + cfg.width * n < 0 then
      (t0 + n, llen (pyGet s.text (t0 + n) []) / cfg.width * cfg.width)
    else if t1 + cfg.width * n ≤ llen (pyGet s.text t0 []) then
      (t0, t1 + cfg.width * n)
    else
      (t0 + n, 0)
  { s with vptl := vptl', ppos := (s.ppos.1 - n, s.ppos.2) }

/-- `Textbox._insert_printable_char`: splice the character at the virtual
cursor, store the new wrap-row count, scroll when at the viewport's last
cell, and advance both cursors.  The source's `(backy, backx) =
self.win.getyx()` reads the window cursor, which equals `self.ppos` at both
read points (see the file comment).  Returns the source's return value. -/
def _insert_printable_char (cfg : Cfg) (s : TBState) (c : Char) : TBState × Int :=
  let v0 := s.vpos.1
  let v1 := s.vpos.2
  let spliced : Line := pySliceTo (lineAt s v0) v1 ++ c :: pySliceFrom (lineAt s v0) v1
  let text' := pySet s.text v0 spliced
  let lcount' := pySet s.lcount v0 (rows cfg.width (pyGet text' v0 []))
  let s1 : TBState := { s with text := text', lcount := lcount' }
  let s2 := if s1.ppos.1 = cfg.maxy ∧ s1.ppos.2 = cfg.maxx then scroll cfg cfg.n_sc s1 else s1
  let backy := s2.ppos.1
  let backx := s2.ppos.2
  let ppos' := if backx + 1 = cfg.width then (backy + 1, 0) else (backy, backx + 1)
  ({ s2 with ppos := ppos', vpos := (v0, v1 + 1) }, 1)

/-- `Textbox.move_front` (`^a`). -/
def move_front (s : TBState) (cfg : Cfg) : TBState :=
  { s with ppos := (s.ppos.1, 0),
           vpos := (s.vpos.1, s.vpos.2 / cfg.width * cfg.width) }

/-- `Textbox.move_end` (`^e`). -/
def move_end (s : TBState) (cfg : Cfg) : TBState :=
  if s.vpos.2 / cfg.width + 1 < pyGet s.lcount s.vpos.1 0 then
    { s with ppos := (s.ppos.1, cfg.maxx),
             vpos := (s.vpos.1, (s.vpos.2 / cfg.width + 1) * cfg.width - 1) }
  else
    { s with ppos := (s.ppos.1, llen (lineAt s s.vpos.1) % cfg.width),
             vpos := (s.vpos.1, llen (lineAt s s.vpos.1)) }

/-- `Textbox.move_left` (`^b` / left arrow).  The boolean is the beep. -/
def move_left (s : TBState) (cfg : Cfg) : TBState × Bool :=
  if s.ppos.2 > 0 then
    ({ s with ppos := (s.ppos.1, s.ppos.2 - 1), vpos := (s.vpos.1, s.vpos.2 - 1) }, false)
  else if s.vpos.1 = 0 ∧ s.vpos.2 = 0 then
    (s, true)
  else
    let s1 := if s.ppos.1 = 0 then scroll cfg (-cfg.n_sc) s else s
    if s1.vpos.2 = 0 then
      let ll := llen (lineAt s1 (s1.vpos.1 - 1))
      ({ s1 with vpos := (s1.vpos.1 - 1, ll),
                 ppos := (s1.ppos.1 - 1, ll % cfg.width) }, false)
    else
      ({ s1 with vpos := (s1.vpos.1, s1.vpos.2 - 1),
                 ppos := (s1.ppos.1 - 1, cfg.maxx) }, false)

/-- `Textbox.move_right` (`^f` / right arrow). -/
def move_right (s : TBState) (cfg : Cfg) : TBState × Bool :=
  let ll := llen (lineAt s s.vpos.1)
  if s.ppos.2 < cfg.maxx ∧ s.vpos.2 < ll then
    ({ s with ppos := (s.ppos.1, s.ppos.2 + 1), vpos := (s.vpos.1, s.vpos.2 + 1) }, false)
  else if s.vpos.1 + 1 = llen s.text ∧ s.vpos.2 = ll then
    (s, true)
  else
    let s1 := if s.ppos.1 = cfg.maxy then scroll cfg cfg.n_sc s else s
    if s1.vpos.2 = ll then
      ({ s1 with vpos := (s1.vpos.1 + 1, 0), ppos := (s1.ppos.1 + 1, 0) }, false)
    else
      ({ s1 with vpos := (s1.vpos.1, s1.vpos.2 + 1), ppos := (s1.ppos.1 + 1, 0) }, false)

/-- `Textbox.move_down` (`^n` / down arrow). -/
def move_down (s : TBState) (cfg : Cfg) : TBState × Bool :=
  if s.vpos.1 + 1 = llen s.text ∧ s.vpos.2 / cfg.width + 1 = pyGet s.lcount s.vpos.1 0 then
    (s, true)
  else
    let s1 := if s.ppos.1 = cfg.maxy then scroll cfg cfg.n_sc s else s
    if s1.vpos.2 / cfg.width + 1 < pyGet s1.lcount s1.vpos.1 0 then
      let ll := llen (lineAt s1 s1.vpos.1)
      let vpos1 := min (s1.vpos.2 + cfg.width) ll
      ({ s1 with vpos := (s1.vpos.1, vpos1),
                 ppos := (s1.ppos.1 + 1, vpos1 % cfg.width) }, false)
    else
      let ll := llen (lineAt s1 (s1.vpos.1 + 1))
      let vpos1 := min (s1.vpos.2 % cfg.width) ll
      ({ s1 with vpos := (s1.vpos.1 + 1, vpos1),
                 ppos := (s1.ppos.1 + 1, vpos1 % cfg.width) }, false)

/-- `Textbox.move_up` (`^p` / up arrow). -/
def move_up (s : TBState) (cfg : Cfg) : TBState × Bool :=
  if s.ppos.1 = 0 ∧ s.vpos.1 = 0 ∧ s.vpos.2 < cfg.width then
    (s, true)
  else
    let s1 := if s.ppos.1 = 0 then scroll cfg (-cfg.n_sc) s else s
    if s1.vpos.2 < cfg.width then
      let ll := llen (lineAt s1 (s1.vpos.1 - 1))
      let vpos1 := min (ll / cfg.width * cfg.width + s1.vpos.2) ll
      ({ s1 with vpos := (s1.vpos.1 - 1, vpos1),
                 ppos := (s1.ppos.1 - 1, min s1.ppos.2 (ll % cfg.width)) }, false)
    else
      ({ s1 with vpos := (s1.vpos.1, s1.vpos.2 - cfg.width),
                 ppos := (s1.ppos.1 - 1, s1.ppos.2) }, false)

/-- `Textbox.delat(vpos)`: delete in the middle of a line, or merge with the
next line when at the end; recompute the stored wrap-row count. -/
def delat (cfg : Cfg) (s : TBState) (dv : Int × Int) : TBState :=
  let s1 :=
    if dv.2 < llen (pyGet s.text dv.1 []) then
      { s with text := pySet s.text dv.1
                 (pySliceTo (pyGet s.text dv.1 []) dv.2 ++
                   pySliceFrom (pyGet s.text dv.1 []) (dv.2 + 1)) }
    else
      let merged := pyGet s.text dv.1 [] ++ pyGet s.text (dv.1 + 1) []
      { s with text := pyPop (pySet s.text dv.1 merged) (dv.1 + 1),
               lcount := pyPop s.lcount (dv.1 + 1) }
  { s1 with lcount := pySet s1.lcount dv.1 (rows cfg.width (pyGet s1.text dv.1 [])) }

/-- `Textbox.delete` (`^d`): beep at the true end of the buffer, otherwise
delete at the cursor (the cursor positions are restored unchanged). -/
def delete (cfg : Cfg) (s : TBState) : TBState × Bool :=
  if s.vpos.1 = llen s.text - 1 ∧ s.vpos.2 = llen (lineAt s s.vpos.1) then
    (s, true)
  else
    (delat cfg s s.vpos, false)

/-- `Textbox.clear_right` (`^k` on a nonempty line): truncate the current
line at the cursor column. -/
def clear_right (cfg : Cfg) (s : TBState) : TBState :=
  let text' := pySet s.text s.vpos.1 (pySliceTo (pyGet s.text s.vpos.1 []) s.vpos.2)
  { s with text := text',
           lcount := pySet s.lcount s.vpos.1 (rows cfg.width (pyGet text' s.vpos.1 [])) }

/-- `Textbox.newline`: split the current line at the cursor, insert the
suffix as a new line below, update both wrap-row counts, and move both
cursors to the start of the new line. -/
def newline (cfg : Cfg) (s : TBState) : TBState :=
  let v0 := s.vpos.1
  let v1 := s.vpos.2
  let text1 := pyInsertAt s.text (v0 + 1) (pySliceFrom (pyGet s.text v0 []) v1)
  let text2 := pySet text1 v0 (pySliceTo (pyGet text1 v0 []) v1)
  let lcount1 := pyInsertAt s.lcount (v0 + 1) (rows cfg.width (pyGet text2 (v0 + 1) []))
  let lcount2 := pySet lcount1 v0 (rows cfg.width (pyGet text2 v0 []))
  { s with text := text2, lcount := lcount2,
           ppos := (s.ppos.1 + 1, 0), vpos := (v0 + 1, 0) }

/-- `Textbox.refresh` (`^l` / resize): recompute every wrap-row count; in
resize mode additionally reset both cursors and the viewport anchor.  The
window geometry is fixed in this model, so `width`/`height` are unchanged. -/
def refresh (cfg : Cfg) (s : TBState) : TBState :=
  if cfg.resize_mode then
    { text := s.text, lcount := s.text.map (rows cfg.width),
      vpos := (0, 0), ppos := (0, 0), vptl := (0, 0) }
  else
    { s with lcount := s.text.map (rows cfg.width) }

/-- `Textbox.do_command(ch)`: the dispatcher, on raw curses key codes.
Constants: `isprint ch ↔ 32 ≤ ch < 127`, `KEY_RESIZE = 410`, `SOH = 1`,
`ENQ = 5`, `STX = 2`, `KEY_LEFT = 260`, `ACK = 6`, `KEY_RIGHT = 261`,
`SO = 14`, `KEY_DOWN = 258`, `DLE = 16`, `KEY_UP = 259`, `NL = 10`,
`SI = 15`, `EOT = 4`, `BS = 8`, `KEY_BACKSPACE = 263`, `DEL = 127`,
`VT = 11`, `FF = 12`, `BEL = 7`.  Result: (state, return value, beeped). -/
def do_command (cfg : Cfg) (s : TBState) (ch : Int) : TBState × Int × Bool :=
  if 32 ≤ ch ∧ ch < 127 then
    let r := _insert_printable_char cfg s (Char.ofNat ch.toNat)
    (r.1, 1, r.2 = 0)
  else if ch = 410 then
    (refresh cfg s, 1, false)
  else if ch = 1 then
    (move_front s cfg, 1, false)
  else if ch = 5 then
    (move_end s cfg, 1, false)
  else if ch = 2 ∨ ch = 260 then
    let r := move_left s cfg
    (r.1, 1, r.2)
  else if ch = 6 ∨ ch = 261 then
    let r := move_right s cfg
    (r.1, 1, r.2)
  else if ch = 14 ∨ ch = 258 then
    let r := move_down s cfg
    (r.1, 1, r.2)
  else if ch = 16 ∨ ch = 259 then
    let r := move_up s cfg
    (r.1, 1, r.2)
  else if ch = 10 then
    if cfg.height = 1 then (s, 0, false)
    else
      let s1 := if s.ppos.1 = cfg.maxy then scroll cfg cfg.n_sc s else s
      (newline cfg s1, 1, false)
  else if ch = 15 then
    let s1 := if s.ppos.1 = cfg.maxy then scroll cfg cfg.n_sc s else s
    (newline cfg s1, 1, false)
  else if ch = 4 then
    let r := delete cfg s
    (r.1, 1, r.2)
  else if ch = 8 ∨ ch = 263 ∨ ch = 127 then
    if s.vpos.1 = 0 ∧ s.vpos.2 = 0 then (s, 1, true)
    else
      let r1 := move_left s cfg
      let r2 := delete cfg r1.1
      (r2.1, 1, r1.2 || r2.2)
  else if ch = 11 then
    if llen (lineAt s s.vpos.1) = 0 then
      let r := delete cfg s
      (r.1, 1, r.2)
    else
      (clear_right cfg s, 1, false)
  else if ch = 12 then
    (refresh cfg s, 1, false)
  else if ch = 7 then
    (s, 0, false)
  else
    (s, 1, false)

/-- Python `t.split(chr(10))`. -/
def splitNL (t : List Char) : List Line := t.splitOn '\n'

/-- `Textbox.__init__`: split the supplied text into logical lines, place
every cursor at the origin and let the initial `refresh()` compute the
wrap-row counts. -/
def mkTextbox (cfg : Cfg) (t : List Char) : TBState :=
  refresh cfg { text := splitNL t, lcount := [1], vpos := (0, 0), ppos := (0, 0), vptl := (0, 0) }

/-- `'\n'.join(self.text)`: the value `edit` returns on termination. -/
def joinLines (text : List Line) : List Char := List.intercalate ['\n'] text

/-- `Textbox.edit` driven by a finite list of key codes: feed each code to
`do_command` (skipping falsy codes as the loop does), stop and return the
joined buffer when a dispatch returns 0, `none` when input runs out. -/
def editRun (cfg : Cfg) : TBState → List Int → Option (List Char)
  | _, [] => none
  | s, ch :: rest =>
    if ch = 0 then editRun cfg s rest
    else
      let r := do_command cfg s ch
      if r.2.1 = 0 then some (joinLines r.1.text) else editRun cfg r.1 rest

/-- The states of one widget instance reachable from construction through
any sequence of dispatched key codes. -/
inductive Reachable (cfg : Cfg) : TBState → Prop where
  | init (t : List Char) : Reachable cfg (mkTextbox cfg t)
  | step (s : TBState) (ch : Int) : Reachable cfg s → Reachable cfg (do_command cfg s ch).1

/-- The command alphabet `do_command` recognizes: printable codes plus the
bound control/function keys. -/
def recognizedCmd (ch : Int) : Prop :=
  (32 ≤ ch ∧ ch < 127) ∨ ch = 410 ∨ ch = 1 ∨ ch = 5 ∨ ch = 2 ∨ ch = 260 ∨ ch = 6 ∨
    ch = 261 ∨ ch = 14 ∨ ch = 258 ∨ ch = 16 ∨ ch = 259 ∨ ch = 10 ∨ ch = 15 ∨ ch = 4 ∨
    ch = 8 ∨ ch = 263 ∨ ch = 127 ∨ ch = 11 ∨ ch = 12 ∨ ch = 7

instance (ch : Int) : Decidable (recognizedCmd ch) := by
  unfold recognizedCmd; infer_instance

/-- Spec-side wrap-row count: `max(1, ceil(len/width))` (§3 Wrap Index).
Stated from the spec's words, to be compared with `rows`. -/
def specWrapRows (w : Int) (l : Line) : Int := max 1 ((llen l + w - 1) / w)

/-- Absolute display row of a virtual position `(v0, v1)` in `text` at
width `w`: the wrap rows of all whole lines above plus the wrap row within
the line.  This is the spec's translation through the Wrap Index (§3). -/
def absRowOf (w : Int) (text : List Line) (p : Int × Int) : Int :=
  (((text.take p.1.toNat).map (rows w)).sum : Int) + p.2 / w

/-- The spec's virtual-to-physical translation (§3, §4.3): the physical
position a virtual position occupies, relative to the viewport anchor. -/
def physOf (cfg : Cfg) (s : TBState) : Int × Int :=
  (absRowOf cfg.width s.text s.vpos - absRowOf cfg.width s.text s.vptl,
   s.vpos.2 % cfg.width)

/-! ### Structural lemmas about the operations -/

theorem scroll_text (cfg : Cfg) (n : Int) (s : TBState) : (scroll cfg n s).text = s.text := rfl

theorem scroll_lcount (cfg : Cfg) (n : Int) (s : TBState) :
    (scroll cfg n s).lcount = s.lcount := rfl

theorem scroll_vpos (cfg : Cfg) (n : Int) (s : TBState) : (scroll cfg n s).vpos = s.vpos := rfl

theorem scroll_ppos (cfg : Cfg) (n : Int) (s : TBState) :
    (scroll cfg n s).ppos = (s.ppos.1 - n, s.ppos.2) := rfl

theorem insert_ret (cfg : Cfg) (s : TBState) (c : Char) :
    (_insert_printable_char cfg s c).2 = 1 := rfl

theorem lineAt_scroll (cfg : Cfg) (n : Int) (s : TBState) (i : Int) :
    lineAt (scroll cfg n s) i = lineAt s i := rfl

/-! ### Dispatch reduction lemmas: `do_command` at each recognized key code -/

theorem do_command_print (cfg : Cfg) (s : TBState) (ch : Int) (h1 : 32 ≤ ch) (h2 : ch < 127) :
    do_command cfg s ch = ((_insert_printable_char cfg s (Char.ofNat ch.toNat)).1, 1, false) := by
  unfold do_command
  rw [if_pos ⟨h1, h2⟩]
  simp [insert_ret]

theorem do_command_left (cfg : Cfg) (s : TBState) (ch : Int) (h : ch = 2 ∨ ch = 260) :
    do_command cfg s ch = ((move_left s cfg).1, 1, (move_left s cfg).2) := by
  rcases h with h | h <;> subst h <;> norm_num [do_command]

theorem do_command_right (cfg : Cfg) (s : TBState) (ch : Int) (h : ch = 6 ∨ ch = 261) :
    do_command cfg s ch = ((move_right s cfg).1, 1, (move_right s cfg).2) := by
  rcases h with h | h <;> subst h <;> norm_num [do_command]

theorem do_command_down (cfg : Cfg) (s : TBState) (ch : Int) (h : ch = 14 ∨ ch = 258) :
    do_command cfg s ch = ((move_down s cfg).1, 1, (move_down s cfg).2) := by
  rcases h with h | h <;> subst h <;> norm_num [do_command]

theorem do_command_up (cfg : Cfg) (s : TBState) (ch : Int) (h : ch = 16 ∨ ch = 259) :
    do_command cfg s ch = ((move_up s cfg).1, 1, (move_up s cfg).2) := by
  rcases h with h | h <;> subst h <;> norm_num [do_command]

theorem do_command_delete (cfg : Cfg) (s : TBState) :
    do_command cfg s 4 = ((delete cfg s).1, 1, (delete cfg s).2) := by
  norm_num [do_command]

theorem do_command_backspace (cfg : Cfg) (s : TBState) (ch : Int)
    (h : ch = 8 ∨ ch = 263 ∨ ch = 127) :
    do_command cfg s ch =
      (if s.vpos.1 = 0 ∧ s.vpos.2 = 0 then (s, 1, true)
       else ((delete cfg (move_left s cfg).1).1, 1,
             (move_left s cfg).2 || (delete cfg (move_left s cfg).1).2)) := by
  rcases h with h | h | h <;> subst h <;> norm_num [do_command]

theorem do_command_bel (cfg : Cfg) (s : TBState) : do_command cfg s 7 = (s, 0, false) := by
  norm_num [do_command]

theorem do_command_resize (cfg : Cfg) (s : TBState) :
    do_command cfg s 410 = (refresh cfg s, 1, false) := by
  norm_num [do_command]

theorem do_command_front (cfg : Cfg) (s : TBState) :
    do_command cfg s 1 = (move_front s cfg, 1, false) := by
  norm_num [do_command]

theorem do_command_end (cfg : Cfg) (s : TBState) :
    do_command cfg s 5 = (move_end s cfg, 1, false) := by
  norm_num [do_command]

theorem do_command_nl (cfg : Cfg) (s : TBState) :
    do_command cfg s 10 =
      if cfg.height = 1 then (s, 0, false)
      else (newline cfg (if s.ppos.1 = cfg.maxy then scroll cfg cfg.n_sc s else s), 1, false) := by
  norm_num [do_command]

theorem do_command_si (cfg : Cfg) (s : TBState) :
    do_command cfg s 15 =
      (newline cfg (if s.ppos.1 = cfg.maxy then scroll cfg cfg.n_sc s else s), 1, false) := by
  norm_num [do_command]

theorem do_command_vt (cfg : Cfg) (s : TBState) :
    do_command cfg s 11 =
      (if llen (lineAt s s.vpos.1) = 0 then ((delete cfg s).1, 1, (delete cfg s).2)
       else (clear_right cfg s, 1, false)) := by
  norm_num [do_command]

theorem do_command_ff (cfg : Cfg) (s : TBState) :
    do_command cfg s 12 = (refresh cfg s, 1, false) := by
  norm_num [do_command]

/-- A dispatch whose key code falls through every branch: identity, return
value 1, no beep. -/
theorem do_command_other (cfg : Cfg) (s : TBState) (ch : Int) (h : ¬recognizedCmd ch) :
    do_command cfg s ch = (s, 1, false) := by
  unfold recognizedCmd at h
  push_neg at h
  obtain ⟨hp, h410, h1, h5, h2, h260, h6, h261, h14, h258, h16, h259,
    h10, h15, h4, h8, h263, h127, h11, h12, h7⟩ := h
  unfold do_command
  rw [if_neg (show ¬(32 ≤ ch ∧ ch < 127) by omega), if_neg h410, if_neg h1, if_neg h5,
    if_neg (show ¬(ch = 2 ∨ ch = 260) by omega),
    if_neg (show ¬(ch = 6 ∨ ch = 261) by omega),
    if_neg (show ¬(ch = 14 ∨ ch = 258) by omega),
    if_neg (show ¬(ch = 16 ∨ ch = 259) by omega),
    if_neg h10, if_neg h15, if_neg h4,
    if_neg (show ¬(ch = 8 ∨ ch = 263 ∨ ch = 127) by omega),
    if_neg h11, if_neg h12, if_neg h7]

/-- Every dispatch other than terminate and `^j` returns 1. -/
theorem do_command_ret_one (cfg : Cfg) (s : TBState) (ch : Int) (h7 : ch ≠ 7) (h10 : ch ≠ 10) :
    (do_command cfg s ch).2.1 = 1 := by
  by_cases hp : 32 ≤ ch ∧ ch < 127
  · rw [do_command_print cfg s ch hp.1 hp.2]
  · by_cases hc : ch = 410
    · subst hc; rw [do_command_resize]
    · by_cases hc1 : ch = 1
      · subst hc1; rw [do_command_front]
      · by_cases hc5 : ch = 5
        · subst hc5; rw [do_command_end]
        · by_cases hcl : ch = 2 ∨ ch = 260
          · rw [do_command_left cfg s ch hcl]
          · by_cases hcr : ch = 6 ∨ ch = 261
            · rw [do_command_right cfg s ch hcr]
            · by_cases hcd : ch = 14 ∨ ch = 258
              · rw [do_command_down cfg s ch hcd]
              · by_cases hcu : ch = 16 ∨ ch = 259
                · rw [do_command_up cfg s ch hcu]
                · by_cases hc15 : ch = 15
                  · subst hc15
                    rw [do_command_si]
                  · by_cases hc4 : ch = 4
                    · subst hc4; rw [do_command_delete]
                    · by_cases hcb : ch = 8 ∨ ch = 263 ∨ ch = 127
                      · rw [do_command_backspace cfg s ch hcb]
                        split_ifs <;> rfl
                      · by_cases hc11 : ch = 11
                        · subst hc11
                          rw [do_command_vt]
                          split_ifs <;> rfl
                        · by_cases hc12 : ch = 12
                          · subst hc12; rw [do_command_ff]
                          · rw [do_command_other cfg s ch (by
                              unfold recognizedCmd
                              push_neg
                              omega)]

/-! ### Claim theorems (with their concrete instances) -/

def cfgA : Cfg := ⟨3, 2, 1, false⟩

def cfgC1 : Cfg := ⟨3, 1, 1, false⟩

def sC1 : TBState :=
  (do_command cfgC1 (do_command cfgC1 (mkTextbox cfgC1 ['a', 'b', 'c']) 15).1 14).1

def cfgC2 : Cfg := ⟨3, 2, 1, false⟩

def sC2 : TBState :=
  (do_command cfgC2 (do_command cfgC2 (do_command cfgC2 (mkTextbox cfgC2 []) 97).1 98).1 99).1

def cfgC7 : Cfg := ⟨5, 1, 1, false⟩

def cfgC8 : Cfg := ⟨3, 5, 1, false⟩

def sC8 : TBState :=
  (do_command cfgC8 (mkTextbox cfgC8 ['a', 'b', 'c', 'd', 'e', 'f', 'g', 'h', 'i']) 6).1

def cfgC5 : Cfg := ⟨1, 1, 1, false⟩

/-- C1 (code bug): the spec's cursor-consistency invariant — after every
dispatch the physical cursor equals the translation of the virtual cursor
through the viewport anchor and the wrap-row counts — is violated by the
code at a concrete reachable state: width 3, height 1, scroll step 1,
initial text `abc`, commands `^o` then `^n` leave `vpos = (1,3)` whose
translation is physical row 1, while the code leaves `ppos = (0,0)`. -/
theorem C1_code_bug :
    Reachable cfgC1 sC1 ∧ sC1.ppos.1 ≠ (physOf cfgC1 sC1).1 ∧ sC1.ppos ≠ physOf cfgC1 sC1 := by
  refine ⟨?_, by decide, by decide⟩
  exact Reachable.step _ 14 (Reachable.step _ 15 (Reachable.init _))

/-- C2 (counterexample): after inserting `a`, `b`, `c` into an empty buffer
at width 3, the stored wrap-row count of line 0 is 2, but the claimed
formula `max(1, ceil(len/width)) = max(1, ceil(3/3))` gives 1. -/
theorem C2_counterexample :
    Reachable cfgC2 sC2 ∧ pyGet sC2.lcount 0 0 = 2 ∧
      specWrapRows cfgC2.width (pyGet sC2.text 0 []) = 1 ∧
      pyGet sC2.lcount 0 0 ≠ specWrapRows cfgC2.width (pyGet sC2.text 0 []) := by
  refine ⟨?_, by decide, by decide, by decide⟩
  exact Reachable.step _ 99 (Reachable.step _ 98 (Reachable.step _ 97 (Reachable.init _)))

/-- C3: dispatching the terminate command (`^g`, BEL) returns the stop
signal 0 without touching any state and without beeping, and the result the
edit loop then collects is the logical lines joined by single newlines. -/
theorem C3_terminate (cfg : Cfg) (s : TBState) :
    do_command cfg s 7 = (s, 0, false) ∧ editRun cfg s [7] = some (joinLines s.text) := by
  refine ⟨do_command_bel cfg s, ?_⟩
  simp [editRun, do_command_bel cfg s]

/-- C7 (counterexample): with a one-display-row viewport the `^o` newline
binding still splits the buffer (and returns 1): width 5, height 1, text
`ab` has one logical line before and two after dispatching `^o`. -/
theorem C7_counterexample :
    cfgC7.height = 1 ∧ (mkTextbox cfgC7 ['a', 'b']).text.length = 1 ∧
      (do_command cfgC7 (mkTextbox cfgC7 ['a', 'b']) 15).1.text.length = 2 ∧
      (do_command cfgC7 (mkTextbox cfgC7 ['a', 'b']) 15).2.1 = 1 := by
  refine ⟨by decide, by decide, by decide, by decide⟩

/-- C7 (amended): with one display row only the `^j` newline binding
refrains from splitting — it returns the stop signal with the state
untouched — while `^o` splits regardless of the height; and a dispatch
returns 0 exactly for the terminate command or for `^j` with height 1. -/
theorem C7_amended (cfg : Cfg) (s : TBState) (ch : Int) :
    (cfg.height = 1 → do_command cfg s 10 = (s, 0, false)) ∧
      ((do_command cfg s ch).2.1 = 0 ↔ ch = 7 ∨ (ch = 10 ∧ cfg.height = 1)) := by
  constructor
  · intro h
    rw [do_command_nl, if_pos h]
  · by_cases h7 : ch = 7
    · subst h7
      rw [do_command_bel]
      simp
    · by_cases h10 : ch = 10
      · subst h10
        rw [do_command_nl]
        by_cases hh : cfg.height = 1
        · rw [if_pos hh]
          simp [hh]
        · rw [if_neg hh]
          simp [hh]
      · rw [do_command_ret_one cfg s ch h7 h10]
        constructor
        · intro h
          exact absurd h (by norm_num)
        · intro h
          exact absurd h (by omega)

theorem C7_witness :
    do_command cfgC7 (mkTextbox cfgC7 []) 10 = (mkTextbox cfgC7 [], 0, false) ∧
      ((do_command cfgC7 (mkTextbox cfgC7 []) 4).2.1 = 0 ↔
        (4 : Int) = 7 ∨ ((4 : Int) = 10 ∧ cfgC7.height = 1)) :=
  ⟨(C7_amended cfgC7 (mkTextbox cfgC7 []) 10).1 rfl, (C7_amended cfgC7 (mkTextbox cfgC7 []) 4).2⟩

/-- C9: a dispatch with a key code outside the recognized command alphabet
returns 1 and leaves the editor state unchanged without beeping. -/
theorem C9_unrecognized_noop (cfg : Cfg) (s : TBState) (ch : Int) (h : ¬recognizedCmd ch) :
    do_command cfg s ch = (s, 1, false) :=
  do_command_other cfg s ch h

theorem C9_witness :
    ¬recognizedCmd 300 ∧ do_command cfgA (mkTextbox cfgA ['h', 'i']) 300 =
      (mkTextbox cfgA ['h', 'i'], 1, false) :=
  ⟨by decide, C9_unrecognized_noop cfgA (mkTextbox cfgA ['h', 'i']) 300 (by decide)⟩

/-- C10: inserting a printable character cannot fail: the insert routine
always returns 1, so a printable dispatch never takes the beep branch,
returns 1, and splices the character into the current line exactly once. -/
theorem C10_insert_total (cfg : Cfg) (s : TBState) (ch : Int) (h1 : 32 ≤ ch) (h2 : ch < 127) :
    (_insert_printable_char cfg s (Char.ofNat ch.toNat)).2 = 1 ∧
      (do_command cfg s ch).2.2 = false ∧ (do_command cfg s ch).2.1 = 1 ∧
      (do_command cfg s ch).1.text =
        pySet s.text s.vpos.1
          (pySliceTo (lineAt s s.vpos.1) s.vpos.2 ++
            Char.ofNat ch.toNat :: pySliceFrom (lineAt s s.vpos.1) s.vpos.2) := by
  rw [do_command_print cfg s ch h1 h2]
  refine ⟨rfl, rfl, rfl, ?_⟩
  unfold _insert_printable_char
  dsimp only
  split_ifs <;> rfl

theorem C10_witness :
    (do_command cfgA (mkTextbox cfgA ['h', 'i']) 97).2.2 = false ∧
      (do_command cfgA (mkTextbox cfgA ['h', 'i']) 97).1.text =
        pySet (mkTextbox cfgA ['h', 'i']).text (mkTextbox cfgA ['h', 'i']).vpos.1
          (pySliceTo (lineAt (mkTextbox cfgA ['h', 'i']) (mkTextbox cfgA ['h', 'i']).vpos.1)
              (mkTextbox cfgA ['h', 'i']).vpos.2 ++
            Char.ofNat (97 : Int).toNat ::
              pySliceFrom (lineAt (mkTextbox cfgA ['h', 'i']) (mkTextbox cfgA ['h', 'i']).vpos.1)
                (mkTextbox cfgA ['h', 'i']).vpos.2) :=
  ⟨(C10_insert_total cfgA (mkTextbox cfgA ['h', 'i']) 97 (by decide) (by decide)).2.1,
   (C10_insert_total cfgA (mkTextbox cfgA ['h', 'i']) 97 (by decide) (by decide)).2.2.2⟩

/-- C6: away from the true start of the buffer, dispatching backspace
produces exactly the state of dispatching move-left then
delete-under-cursor; at virtual position (0,0) it beeps and changes
nothing. -/
theorem C6_backspace_equiv (cfg : Cfg) (s : TBState) (ch : Int)
    (h : ch = 8 ∨ ch = 263 ∨ ch = 127) :
    (s.vpos ≠ (0, 0) →
        (do_command cfg s ch).1 = (do_command cfg (do_command cfg s 2).1 4).1) ∧
      (s.vpos = (0, 0) → do_command cfg s ch = (s, 1, true)) := by
  rw [do_command_backspace cfg s ch h, do_command_left cfg s 2 (Or.inl rfl)]
  constructor
  · intro hne
    rw [if_neg (by
      intro hc
      exact hne (Prod.ext hc.1 hc.2))]
    rw [do_command_delete]
  · intro he
    rw [if_pos ⟨by rw [he], by rw [he]⟩]

def sC6 : TBState := (do_command cfgA (mkTextbox cfgA ['a', 'b']) 6).1

theorem C6_witness :
    (do_command cfgA sC6 263).1 = (do_command cfgA (do_command cfgA sC6 2).1 4).1 :=
  (C6_backspace_equiv cfgA sC6 263 (by norm_num)).1 (by decide)

/-- C8 (counterexample): at width 3, in the reachable state with text
`abcdefghi` and cursor `vpos = (0,1)`, `ppos = (0,1)` (which has wrap rows
below), move-down lands at physical column 1 = `min(vcol+width, ll) % width`,
not `min(pcol, ll % width) = min(1, 0) = 0` as claimed. -/
theorem C8_counterexample :
    Reachable cfgC8 sC8 ∧
      sC8.vpos.2 / cfgC8.width + 1 < pyGet sC8.lcount sC8.vpos.1 0 ∧
      (do_command cfgC8 sC8 14).1.ppos.2 ≠
        min sC8.ppos.2 (llen (lineAt sC8 sC8.vpos.1) % cfgC8.width) := by
  refine ⟨?_, by decide, by decide⟩
  exact Reachable.step _ 6 (Reachable.init _)

/-- C8 (amended): when the current logical line has another wrap row below
the cursor's (and the at-buffer-bottom beep does not fire), move-down sets
`vcol' = min(vcol + width, len(line))` and the landing physical column to
`vcol' % width` (the claimed `min(pcol, len(line) % width)` only coincides
when the destination is the line's last wrap row). -/
theorem C8_amended (cfg : Cfg) (s : TBState)
    (hb : ¬(s.vpos.1 + 1 = llen s.text ∧
        s.vpos.2 / cfg.width + 1 = pyGet s.lcount s.vpos.1 0))
    (hwit : s.vpos.2 / cfg.width + 1 < pyGet s.lcount s.vpos.1 0) :
    (do_command cfg s 14).1.vpos =
        (s.vpos.1, min (s.vpos.2 + cfg.width) (llen (lineAt s s.vpos.1))) ∧
      (do_command cfg s 14).1.ppos.2 =
        min (s.vpos.2 + cfg.width) (llen (lineAt s s.vpos.1)) % cfg.width := by
  rw [do_command_down cfg s 14 (Or.inl rfl)]
  unfold move_down
  rw [if_neg hb]
  dsimp only
  split_ifs <;> first | exact ⟨rfl, rfl⟩ | exact absurd hwit (by assumption)

/-! ### C4: printable-insert round trip -/

theorem joinLines_singleton (l : Line) : joinLines [l] = l := by
  simp [joinLines, List.intercalate]

theorem editRun_cons (cfg : Cfg) (s : TBState) (ch : Int) (rest : List Int) :
    editRun cfg s (ch :: rest) =
      if ch = 0 then editRun cfg s rest
      else
        if (do_command cfg s ch).2.1 = 0 then some (joinLines (do_command cfg s ch).1.text)
        else editRun cfg (do_command cfg s ch).1 rest := rfl

theorem insert_single (cfg : Cfg) (s : TBState) (c : Char) (acc : Line)
    (ht : s.text = [acc]) (hv : s.vpos = (0, llen acc)) :
    (_insert_printable_char cfg s c).1.text = [acc ++ [c]] ∧
      (_insert_printable_char cfg s c).1.vpos = (0, llen acc + 1) := by
  have htext : (_insert_printable_char cfg s c).1.text =
      pySet s.text s.vpos.1
        (pySliceTo (lineAt s s.vpos.1) s.vpos.2 ++
          c :: pySliceFrom (lineAt s s.vpos.1) s.vpos.2) := by
    unfold _insert_printable_char
    dsimp only
    split_ifs <;> rfl
  have hvpos : (_insert_printable_char cfg s c).1.vpos = (s.vpos.1, s.vpos.2 + 1) := by
    unfold _insert_printable_char
    dsimp only
  refine ⟨?_, by rw [hvpos, hv]⟩
  rw [htext, ht, hv]
  simp [lineAt, ht, pyGet, pySet, pyResolve, pySliceTo, pySliceFrom, llen]

theorem editRun_inserts (cfg : Cfg) (cs : List Char)
    (hp : ∀ c ∈ cs, 32 ≤ (c.toNat : Int) ∧ (c.toNat : Int) < 127) :
    ∀ (s : TBState) (acc : Line), s.text = [acc] → s.vpos = (0, llen acc) →
      editRun cfg s (cs.map (fun c => ((c.toNat : Int))) ++ [7]) = some (acc ++ cs) := by
  induction cs with
  | nil =>
    intro s acc ht hv
    rw [List.map_nil, List.nil_append, editRun_cons,
      if_neg (by norm_num), do_command_bel]
    simp [ht, joinLines_singleton]
  | cons c cs ih =>
    intro s acc ht hv
    have hc := hp c (List.mem_cons_self c cs)
    rw [List.map_cons, List.cons_append, editRun_cons, if_neg (by omega),
      do_command_print cfg s _ hc.1 hc.2]
    rw [if_neg (by norm_num)]
    have hchar : Char.ofNat ((c.toNat : Int)).toNat = c := by
      rw [Int.toNat_natCast, Char.ofNat_toNat]
    rw [hchar]
    obtain ⟨ht', hv'⟩ :=
      insert_single cfg s c acc ht hv
    have hlen : llen (acc ++ [c]) = llen acc + 1 := by simp [llen]
    rw [ih (fun x hx => hp x (List.mem_cons_of_mem c hx)) _ (acc ++ [c]) ht'
      (by rw [hv', hlen])]
    simp

/-- C4: from an empty buffer with viewport width at least the input length,
dispatching the printable-insert command for each character in order and
terminating returns exactly the concatenation of the characters as a single
logical line. -/
theorem C4_insert_roundtrip (cfg : Cfg) (cs : List Char)
    (hp : ∀ c ∈ cs, 32 ≤ (c.toNat : Int) ∧ (c.toNat : Int) < 127)
    (hw : (cs.length : Int) ≤ cfg.width) :
    editRun cfg (mkTextbox cfg []) (cs.map (fun c => ((c.toNat : Int))) ++ [7]) = some cs := by
  have ht : (mkTextbox cfg []).text = [[]] := by
    unfold mkTextbox refresh
    split_ifs <;> rfl
  have hv : (mkTextbox cfg []).vpos = (0, llen ([] : Line)) := by
    unfold mkTextbox refresh
    split_ifs <;> rfl
  simpa using editRun_inserts cfg cs hp (mkTextbox cfg []) [] ht hv

def cfgC4 : Cfg := ⟨10, 1, 1, false⟩

theorem C4_witness :
    editRun cfgC4 (mkTextbox cfgC4 [])
      (['h', 'i'].map (fun c => ((c.toNat : Int))) ++ [7]) = some ['h', 'i'] :=
  C4_insert_roundtrip cfgC4 ['h', 'i'] (by decide) (by decide)

theorem C8_witness :
    (do_command cfgC8 sC8 14).1.vpos =
      (sC8.vpos.1, min (sC8.vpos.2 + cfgC8.width) (llen (lineAt sC8 sC8.vpos.1))) :=
  (C8_amended cfgC8 sC8 (by decide) (by decide)).1

/-! ### Integer floor-division toolbox (divisor = the positive width) -/

theorem llen_nonneg (l : List α) : 0 ≤ llen l := Int.natCast_nonneg _

theorem split_div_mod (w q r v : Int) (hw : 0 < w) (h0 : 0 ≤ r) (h1 : r < w)
    (hv : v = w * q + r) : v / w = q ∧ v % w = r := by
  have h2 : v = r + q * w := by rw [hv]; ring
  constructor
  · rw [h2, Int.add_mul_ediv_right r q (by omega : w ≠ 0), Int.ediv_eq_zero_of_lt h0 h1,
      zero_add]
  · rw [h2, Int.add_mul_emod_self, Int.emod_eq_of_lt h0 h1]

theorem emod_bounds (w v : Int) (hw : 0 < w) : 0 ≤ v % w ∧ v % w < w :=
  ⟨Int.emod_nonneg v (by omega), Int.emod_lt_of_pos v hw⟩

theorem divmod_succ (w v : Int) (hw : 0 < w) :
    ((v + 1) / w = if v % w + 1 = w then v / w + 1 else v / w) ∧
      ((v + 1) % w = if v % w + 1 = w then 0 else v % w + 1) := by
  have he : w * (v / w) + v % w = v := Int.ediv_add_emod v w
  obtain ⟨h0, h1⟩ := emod_bounds w v hw
  split_ifs with hc
  · exact split_div_mod w (v / w + 1) 0 (v + 1) hw le_rfl hw
      (by rw [mul_add, mul_one]; linarith)
  · exact split_div_mod w (v / w) (v % w + 1) (v + 1) hw (by linarith) (by omega)
      (by linarith)

theorem divmod_pred (w v : Int) (hw : 0 < w) :
    ((v - 1) / w = if v % w = 0 then v / w - 1 else v / w) ∧
      ((v - 1) % w = if v % w = 0 then w - 1 else v % w - 1) := by
  have he : w * (v / w) + v % w = v := Int.ediv_add_emod v w
  obtain ⟨h0, h1⟩ := emod_bounds w v hw
  split_ifs with hc
  · exact split_div_mod w (v / w - 1) (w - 1) (v - 1) hw (by linarith) (by linarith)
      (by rw [mul_sub, mul_one]; linarith)
  · exact split_div_mod w (v / w) (v % w - 1) (v - 1) hw (by omega) (by linarith)
      (by linarith)

theorem divmod_add_w (w v : Int) (hw : 0 < w) :
    ((v + w) / w = v / w + 1) ∧ ((v + w) % w = v % w) := by
  have he : w * (v / w) + v % w = v := Int.ediv_add_emod v w
  obtain ⟨h0, h1⟩ := emod_bounds w v hw
  exact split_div_mod w (v / w + 1) (v % w) (v + w) hw h0 h1
    (by rw [mul_add, mul_one]; linarith)

theorem divmod_sub_w (w v : Int) (hw : 0 < w) :
    ((v - w) / w = v / w - 1) ∧ ((v - w) % w = v % w) := by
  have he : w * (v / w) + v % w = v := Int.ediv_add_emod v w
  obtain ⟨h0, h1⟩ := emod_bounds w v hw
  exact split_div_mod w (v / w - 1) (v % w) (v - w) hw h0 h1
    (by rw [mul_sub, mul_one]; linarith)

theorem divmod_mul_self (w q : Int) (hw : 0 < w) : q * w / w = q ∧ q * w % w = 0 :=
  split_div_mod w q 0 (q * w) hw le_rfl hw (by ring)

/-- `v/w*w ≤ v` for `0 < w` (used for clamping arguments). -/
theorem ediv_mul_self_le (w v : Int) (hw : 0 < w) : v / w * w ≤ v := by
  have he : w * (v / w) + v % w = v := Int.ediv_add_emod v w
  have h0 : 0 ≤ v % w := (emod_bounds w v hw).1
  linarith [he]

/-! ### The column-synchronization invariant and its preservation -/

/-- The physical column always equals the virtual column modulo the width
(and the virtual column is nonnegative).  This is the inductive column half
of the spec's cursor-consistency invariant. -/
def ColInv (cfg : Cfg) (s : TBState) : Prop :=
  0 ≤ s.vpos.2 ∧ s.ppos.2 = s.vpos.2 % cfg.width

theorem colInv_scroll (cfg : Cfg) (n : Int) (s : TBState) (h : ColInv cfg s) :
    ColInv cfg (scroll cfg n s) := h

theorem insert_vpos (cfg : Cfg) (s : TBState) (c : Char) :
    (_insert_printable_char cfg s c).1.vpos = (s.vpos.1, s.vpos.2 + 1) := by
  unfold _insert_printable_char
  dsimp only

theorem insert_text (cfg : Cfg) (s : TBState) (c : Char) :
    (_insert_printable_char cfg s c).1.text =
      pySet s.text s.vpos.1
        (pySliceTo (lineAt s s.vpos.1) s.vpos.2 ++
          c :: pySliceFrom (lineAt s s.vpos.1) s.vpos.2) := by
  unfold _insert_printable_char
  dsimp only
  split_ifs <;> rfl

theorem insert_lcount (cfg : Cfg) (s : TBState) (c : Char) :
    (_insert_printable_char cfg s c).1.lcount =
      pySet s.lcount s.vpos.1
        (rows cfg.width
          (pyGet
            (pySet s.text s.vpos.1
              (pySliceTo (lineAt s s.vpos.1) s.vpos.2 ++
                c :: pySliceFrom (lineAt s s.vpos.1) s.vpos.2))
            s.vpos.1 [])) := by
  unfold _insert_printable_char
  dsimp only
  split_ifs <;> rfl

theorem insert_ppos (cfg : Cfg) (s : TBState) (c : Char) :
    (_insert_printable_char cfg s c).1.ppos =
      (if s.ppos.2 + 1 = cfg.width then
        (if s.ppos.1 = cfg.maxy ∧ s.ppos.2 = cfg.maxx then s.ppos.1 - cfg.n_sc
          else s.ppos.1) + 1
       else
        ((if s.ppos.1 = cfg.maxy ∧ s.ppos.2 = cfg.maxx then s.ppos.1 - cfg.n_sc
          else s.ppos.1)),
       if s.ppos.2 + 1 = cfg.width then 0 else s.ppos.2 + 1) := by
  unfold _insert_printable_char
  dsimp only
  split_ifs <;>
    first
      | rfl
      | exact absurd (show s.ppos.2 + 1 = cfg.width by assumption) (by assumption)

theorem colInv_insert (cfg : Cfg) (s : TBState) (c : Char) (hw : 0 < cfg.width)
    (h : ColInv cfg s) : ColInv cfg (_insert_printable_char cfg s c).1 := by
  obtain ⟨hv0, hp⟩ := h
  constructor
  · rw [insert_vpos]
    dsimp only
    omega
  · rw [insert_vpos, insert_ppos]
    dsimp only
    rw [(divmod_succ cfg.width s.vpos.2 hw).2, ← hp]

/-! ### Canonical forms of the Python list helpers at in-range indices -/

theorem pyGet_in (xs : List α) (i : Int) (d : α) (h0 : 0 ≤ i) (h1 : i < llen xs) :
    pyGet xs i d = xs.getD i.toNat d := by
  unfold pyGet pyResolve
  rw [if_pos h0, if_pos (by unfold llen at h1; omega)]

theorem pySet_in (xs : List α) (i : Int) (v : α) (h0 : 0 ≤ i) (h1 : i < llen xs) :
    pySet xs i v = xs.take i.toNat ++ v :: xs.drop (i.toNat + 1) := by
  unfold pySet pyResolve
  rw [if_pos h0, if_pos (by unfold llen at h1; omega)]
  show xs.set i.toNat v = _
  rw [List.set_eq_take_append_cons_drop, if_pos (by unfold llen at h1; omega)]

theorem pyPop_in (xs : List α) (i : Int) (h0 : 0 ≤ i) (h1 : i < llen xs) :
    pyPop xs i = xs.take i.toNat ++ xs.drop (i.toNat + 1) := by
  unfold pyPop pyResolve
  rw [if_pos h0, if_pos (by unfold llen at h1; omega)]
  show xs.eraseIdx i.toNat = _
  exact List.eraseIdx_eq_take_drop_succ xs i.toNat

theorem pyInsertAt_in (xs : List α) (i : Int) (v : α) (h0 : 0 ≤ i) (h1 : i ≤ llen xs) :
    pyInsertAt xs i v = xs.take i.toNat ++ v :: xs.drop i.toNat := by
  unfold pyInsertAt
  rw [if_pos h0]
  have : min i.toNat xs.length = i.toNat := by unfold llen at h1; omega
  rw [this]

theorem pySliceTo_in (xs : List α) (i : Int) (h0 : 0 ≤ i) :
    pySliceTo xs i = xs.take i.toNat := by
  unfold pySliceTo
  rw [if_pos h0]

theorem pySliceFrom_in (xs : List α) (i : Int) (h0 : 0 ≤ i) :
    pySliceFrom xs i = xs.drop i.toNat := by
  unfold pySliceFrom
  rw [if_pos h0]

theorem getD_middle (A B : List α) (L d : α) : (A ++ L :: B).getD A.length d = L := by
  rw [List.getD_append_right A (L :: B) d A.length le_rfl, Nat.sub_self]
  rfl

theorem getD_after_middle (A B : List α) (L d : α) :
    (A ++ L :: B).getD (A.length + 1) d = B.getD 0 d := by
  rw [List.getD_append_right A (L :: B) d (A.length + 1) (by omega)]
  have : A.length + 1 - A.length = 1 := by omega
  rw [this]
  rfl

/-! ### Wrap-row sums: the display row of a virtual position -/

/-- Total wrap rows of the first `k` logical lines. -/
def rowSum (w : Int) (text : List Line) (k : Nat) : Int :=
  ((text.take k).map (rows w)).sum

theorem rows_pos (w : Int) (l : Line) (hw : 0 < w) : 1 ≤ rows w l := by
  unfold rows
  have := Int.ediv_nonneg (llen_nonneg l) hw.le
  omega

theorem sum_ge_length (l : List Int) (h : ∀ x ∈ l, 1 ≤ x) : (l.length : Int) ≤ l.sum := by
  induction l with
  | nil => simp
  | cons a l ih =>
    rw [List.sum_cons, List.length_cons]
    have ha := h a (List.mem_cons_self a l)
    have := ih (fun x hx => h x (List.mem_cons_of_mem a hx))
    push_cast
    omega

theorem rowSum_nonneg (w : Int) (text : List Line) (k : Nat) (hw : 0 < w) :
    0 ≤ rowSum w text k := by
  have h := sum_ge_length ((text.take k).map (rows w)) (by
    intro x hx
    obtain ⟨l, _, rfl⟩ := List.mem_map.1 hx
    exact rows_pos w l hw)
  have : (0 : Int) ≤ (((text.take k).map (rows w)).length : Int) := Int.natCast_nonneg _
  unfold rowSum
  omega

theorem rowSum_ge (w : Int) (text : List Line) (k : Nat) (hw : 0 < w)
    (hk : k ≤ text.length) : (k : Int) ≤ rowSum w text k := by
  have h := sum_ge_length ((text.take k).map (rows w)) (by
    intro x hx
    obtain ⟨l, _, rfl⟩ := List.mem_map.1 hx
    exact rows_pos w l hw)
  rw [List.length_map, List.length_take] at h
  unfold rowSum
  have : min k text.length = k := by omega
  rw [this] at h
  exact h

theorem rowSum_succ (w : Int) (text : List Line) (k : Nat) (hk : k < text.length) :
    rowSum w text (k + 1) = rowSum w text k + rows w (text.getD k []) := by
  unfold rowSum
  rw [List.take_succ]
  have hsome : text[k]? = some (text.getD k []) := by
    rw [List.getElem?_eq_getElem hk, List.getD_eq_getElem text [] hk]
  rw [hsome]
  simp

theorem rowSum_append_le (w : Int) (A rest : List Line) (k : Nat) (h : k ≤ A.length) :
    rowSum w (A ++ rest) k = rowSum w A k := by
  unfold rowSum
  rw [List.take_append_of_le_length h]

/-! ### The joint state invariant -/

/-- Absolute display row (counted from the top of the buffer) of the
virtual cursor. -/
def absRow (cfg : Cfg) (s : TBState) : Int :=
  rowSum cfg.width s.text s.vpos.1.toNat + s.vpos.2 / cfg.width

/-- The inductive well-formedness invariant of reachable states (with
scroll step 1): the stored wrap-row counts are the recomputed ones, the
virtual cursor addresses a real line and a column within it, the physical
column is the virtual column modulo the width, and the physical row is
nonnegative and no lower on the screen than the cursor's absolute display
row. -/
def Inv (cfg : Cfg) (s : TBState) : Prop :=
  s.lcount = s.text.map (rows cfg.width) ∧
    (0 ≤ s.vpos.1 ∧ s.vpos.1 < llen s.text) ∧
    (0 ≤ s.vpos.2 ∧ s.vpos.2 ≤ llen (lineAt s s.vpos.1)) ∧
    s.ppos.2 = s.vpos.2 % cfg.width ∧
    (0 ≤ s.ppos.1 ∧ s.ppos.1 ≤ absRow cfg s)

theorem lcount_get (cfg : Cfg) (s : TBState) (hA : s.lcount = s.text.map (rows cfg.width))
    (i : Int) (h0 : 0 ≤ i) (h1 : i < llen s.text) :
    pyGet s.lcount i 0 = rows cfg.width (lineAt s i) := by
  rw [hA]
  unfold lineAt
  rw [pyGet_in _ _ _ h0 (by unfold llen at h1 ⊢; rw [List.length_map]; omega),
    pyGet_in _ _ _ h0 h1]
  rw [List.getD_eq_getElem _ _ (by unfold llen at h1; rw [List.length_map]; omega),
    List.getD_eq_getElem _ _ (by unfold llen at h1; omega), List.getElem_map]

theorem inv_refresh (cfg : Cfg) (s : TBState) (hw : 0 < cfg.width) (h : Inv cfg s) :
    Inv cfg (refresh cfg s) := by
  obtain ⟨hA, ⟨hB0, hB1⟩, ⟨hC0, hC1⟩, hD, hE0, hE1⟩ := h
  unfold refresh
  split_ifs with hm
  · refine ⟨rfl, ⟨le_rfl, hB0.trans_lt hB1⟩, ⟨le_rfl, llen_nonneg _⟩,
      (Int.zero_emod cfg.width).symm, le_rfl, ?_⟩
    show (0 : Int) ≤ rowSum cfg.width s.text (0 : Int).toNat + (0 : Int) / cfg.width
    rw [Int.zero_ediv]
    have := rowSum_nonneg cfg.width s.text (0 : Int).toNat hw
    omega
  · exact ⟨rfl, ⟨hB0, hB1⟩, ⟨hC0, hC1⟩, hD, hE0, hE1⟩

theorem inv_front (cfg : Cfg) (s : TBState) (hw : 0 < cfg.width) (h : Inv cfg s) :
    Inv cfg (move_front s cfg) := by
  obtain ⟨hA, ⟨hB0, hB1⟩, ⟨hC0, hC1⟩, hD, hE0, hE1⟩ := h
  have hq0 : 0 ≤ s.vpos.2 / cfg.width := Int.ediv_nonneg hC0 hw.le
  have hmul := divmod_mul_self cfg.width (s.vpos.2 / cfg.width) hw
  have hle : s.vpos.2 / cfg.width * cfg.width ≤ s.vpos.2 :=
    ediv_mul_self_le cfg.width s.vpos.2 hw
  unfold move_front
  refine ⟨hA, ⟨hB0, hB1⟩, ⟨mul_nonneg hq0 hw.le, hle.trans hC1⟩, hmul.2.symm, hE0, ?_⟩
  show s.ppos.1 ≤
    rowSum cfg.width s.text s.vpos.1.toNat + s.vpos.2 / cfg.width * cfg.width / cfg.width
  rw [hmul.1]
  exact hE1

theorem inv_end (cfg : Cfg) (s : TBState) (hw : 0 < cfg.width) (h : Inv cfg s) :
    Inv cfg (move_end s cfg) := by
  obtain ⟨hA, ⟨hB0, hB1⟩, ⟨hC0, hC1⟩, hD, hE0, hE1⟩ := h
  unfold absRow at hE1
  have hlc := lcount_get cfg s hA s.vpos.1 hB0 hB1
  have hll0 : 0 ≤ llen (lineAt s s.vpos.1) := llen_nonneg _
  have hq0 : 0 ≤ s.vpos.2 / cfg.width := Int.ediv_nonneg hC0 hw.le
  unfold move_end
  split_ifs with hc
  · rw [hlc] at hc
    unfold rows at hc
    have hqlt : s.vpos.2 / cfg.width + 1 ≤ llen (lineAt s s.vpos.1) / cfg.width := by omega
    have hmul := divmod_mul_self cfg.width (s.vpos.2 / cfg.width + 1) hw
    have hpred := divmod_pred cfg.width ((s.vpos.2 / cfg.width + 1) * cfg.width) hw
    rw [hmul.2, if_pos rfl] at hpred
    have hbound : (s.vpos.2 / cfg.width + 1) * cfg.width ≤ llen (lineAt s s.vpos.1) := by
      calc (s.vpos.2 / cfg.width + 1) * cfg.width
          ≤ llen (lineAt s s.vpos.1) / cfg.width * cfg.width :=
            mul_le_mul_of_nonneg_right hqlt hw.le
        _ ≤ llen (lineAt s s.vpos.1) := ediv_mul_self_le _ _ hw
    have hmm := mul_le_mul_of_nonneg_right
      (show (1 : Int) ≤ s.vpos.2 / cfg.width + 1 by omega) hw.le
    rw [one_mul] at hmm
    refine ⟨hA, ⟨hB0, hB1⟩, ⟨?_, ?_⟩, ?_, hE0, ?_⟩
    · show (0 : Int) ≤ (s.vpos.2 / cfg.width + 1) * cfg.width - 1
      linarith
    · show (s.vpos.2 / cfg.width + 1) * cfg.width - 1 ≤ llen (lineAt s s.vpos.1)
      linarith
    · show cfg.maxx = ((s.vpos.2 / cfg.width + 1) * cfg.width - 1) % cfg.width
      rw [hpred.2]
      rfl
    · show s.ppos.1 ≤ rowSum cfg.width s.text s.vpos.1.toNat +
        ((s.vpos.2 / cfg.width + 1) * cfg.width - 1) / cfg.width
      rw [hpred.1, hmul.1]
      have : s.vpos.2 / cfg.width + 1 - 1 = s.vpos.2 / cfg.width := by ring
      rw [this]
      exact hE1
  · rw [hlc] at hc
    unfold rows at hc
    have hge : llen (lineAt s s.vpos.1) / cfg.width ≤ s.vpos.2 / cfg.width := by omega
    have hle2 : s.vpos.2 / cfg.width ≤ llen (lineAt s s.vpos.1) / cfg.width :=
      Int.ediv_le_ediv hw hC1
    refine ⟨hA, ⟨hB0, hB1⟩, ⟨hll0, le_rfl⟩, rfl, hE0, ?_⟩
    show s.ppos.1 ≤ rowSum cfg.width s.text s.vpos.1.toNat +
      llen (lineAt s s.vpos.1) / cfg.width
    omega

theorem llen_pySet (xs : List α) (i : Int) (v : α) : llen (pySet xs i v) = llen xs := by
  unfold pySet
  cases pyResolve xs.length i <;> simp [llen]

theorem pyGet_pySet_self (xs : List α) (i : Int) (v d : α) (h0 : 0 ≤ i) (h1 : i < llen xs) :
    pyGet (pySet xs i v) i d = v := by
  have hk : i.toNat < xs.length := by unfold llen at h1; omega
  have hset : pySet xs i v = xs.set i.toNat v := by
    unfold pySet pyResolve
    rw [if_pos h0, if_pos (by unfold llen at h1; omega)]
  rw [hset, pyGet_in _ _ _ h0 (by unfold llen; rw [List.length_set]; unfold llen at h1; omega),
    List.getD_eq_getElem _ _ (by rw [List.length_set]; omega), List.getElem_set_self]

theorem rowSum_pySet_self (w : Int) (xs : List Line) (i : Int) (L : Line)
    (h0 : 0 ≤ i) (h1 : i < llen xs) :
    rowSum w (pySet xs i L) i.toNat = rowSum w xs i.toNat := by
  rw [pySet_in _ _ _ h0 h1,
    rowSum_append_le _ _ _ _ (by rw [List.length_take]; unfold llen at h1; omega)]
  unfold rowSum
  rw [List.take_take, min_self]

theorem setline_A (cfg : Cfg) (s : TBState) (L : Line)
    (hA : s.lcount = s.text.map (rows cfg.width)) (hB0 : 0 ≤ s.vpos.1)
    (hB1 : s.vpos.1 < llen s.text) :
    pySet s.lcount s.vpos.1 (rows cfg.width (pyGet (pySet s.text s.vpos.1 L) s.vpos.1 [])) =
      (pySet s.text s.vpos.1 L).map (rows cfg.width) := by
  rw [pyGet_pySet_self _ _ _ _ hB0 hB1, hA,
    pySet_in s.text _ _ hB0 hB1,
    pySet_in (s.text.map (rows cfg.width)) _ _ hB0
      (by unfold llen at hB1 ⊢; rw [List.length_map]; omega)]
  rw [List.map_append, List.map_cons, List.map_take, List.map_drop]

theorem inv_clear_right (cfg : Cfg) (s : TBState) (hw : 0 < cfg.width) (h : Inv cfg s) :
    Inv cfg (clear_right cfg s) := by
  obtain ⟨hA, ⟨hB0, hB1⟩, ⟨hC0, hC1⟩, hD, hE0, hE1⟩ := h
  unfold absRow at hE1
  unfold clear_right
  dsimp only
  refine ⟨setline_A cfg s _ hA hB0 hB1, ⟨hB0, ?_⟩, ⟨hC0, ?_⟩, hD, hE0, ?_⟩
  · show s.vpos.1 < llen (pySet s.text s.vpos.1 _)
    rw [llen_pySet]
    exact hB1
  · show s.vpos.2 ≤ llen (lineAt { s with
      text := pySet s.text s.vpos.1 (pySliceTo (pyGet s.text s.vpos.1 []) s.vpos.2),
      lcount := _ } s.vpos.1)
    unfold lineAt
    show s.vpos.2 ≤ llen (pyGet (pySet s.text s.vpos.1
      (pySliceTo (pyGet s.text s.vpos.1 []) s.vpos.2)) s.vpos.1 [])
    rw [pyGet_pySet_self _ _ _ _ hB0 hB1, pySliceTo_in _ _ hC0]
    unfold lineAt at hC1
    unfold llen at hC1 ⊢
    rw [List.length_take]
    omega
  · show s.ppos.1 ≤ rowSum cfg.width (pySet s.text s.vpos.1 _) s.vpos.1.toNat +
      s.vpos.2 / cfg.width
    rw [rowSum_pySet_self _ _ _ _ hB0 hB1]
    exact hE1

theorem map_eraseIdx (f : α → β) (l : List α) (n : Nat) :
    (l.map f).eraseIdx n = (l.eraseIdx n).map f := by
  rw [List.eraseIdx_eq_take_drop_succ, List.eraseIdx_eq_take_drop_succ,
    List.map_append, List.map_take, List.map_drop]

theorem map_pyPop (f : Line → Int) (xs : List Line) (i : Int) :
    pyPop (xs.map f) i = (pyPop xs i).map f := by
  unfold pyPop pyResolve
  rw [List.length_map]
  split_ifs <;> simp [map_eraseIdx]

theorem llen_pyPop_in (xs : List α) (i : Int) (h0 : 0 ≤ i) (h1 : i < llen xs) :
    llen (pyPop xs i) = llen xs - 1 := by
  rw [pyPop_in xs i h0 h1]
  unfold llen at h1 ⊢
  rw [List.length_append, List.length_take, List.length_drop]
  omega

theorem pySet_pyPop_comm (xs : List α) (i : Int) (v : α) (h0 : 0 ≤ i)
    (h1 : i + 1 < llen xs) :
    pyPop (pySet xs i v) (i + 1) = pySet (pyPop xs (i + 1)) i v := by
  have hlen : i.toNat + 1 < xs.length := by unfold llen at h1; omega
  have htn : (i + 1).toNat = i.toNat + 1 := by omega
  have hA : (xs.take i.toNat).length = i.toNat := by rw [List.length_take]; omega
  have hL : pyPop (pySet xs i v) (i + 1) =
      xs.take i.toNat ++ v :: xs.drop (i.toNat + 2) := by
    rw [pySet_in xs i v h0 (by unfold llen at h1 ⊢; omega),
      pyPop_in _ _ (by omega) (by
        unfold llen
        rw [List.length_append, List.length_take, List.length_cons, List.length_drop]
        unfold llen at h1
        push_cast
        omega),
      htn]
    have t1 := @List.take_append _ (xs.take i.toNat) (v :: xs.drop (i.toNat + 1)) 1
    rw [hA] at t1
    have t2 := @List.drop_append _ (xs.take i.toNat) (v :: xs.drop (i.toNat + 1)) 2
    rw [hA] at t2
    rw [show i.toNat + 1 + 1 = i.toNat + 2 by omega, t2, t1]
    simp [List.drop_drop]
  have hR : pySet (pyPop xs (i + 1)) i v =
      xs.take i.toNat ++ v :: xs.drop (i.toNat + 2) := by
    rw [pyPop_in xs _ (by omega) (by unfold llen at h1 ⊢; omega), htn,
      pySet_in _ _ _ h0 (by
        unfold llen
        rw [List.length_append, List.length_take, List.length_drop]
        unfold llen at h1
        push_cast
        omega)]
    have t3 : (xs.take (i.toNat + 1) ++ xs.drop (i.toNat + 1 + 1)).take i.toNat =
        xs.take i.toNat := by
      rw [List.take_append_of_le_length (by rw [List.length_take]; omega), List.take_take,
        min_eq_left (by omega)]
    have t4 := @List.drop_append _ (xs.take (i.toNat + 1)) (xs.drop (i.toNat + 1 + 1)) 0
    rw [List.length_take, min_eq_left (by omega), Nat.add_zero, List.drop_zero] at t4
    rw [t3, t4]
  rw [hL, hR]

theorem setline_map (w : Int) (xs : List Line) (i : Int) (L : Line) (h0 : 0 ≤ i)
    (h1 : i < llen xs) :
    pySet (xs.map (rows w)) i (rows w (pyGet (pySet xs i L) i [])) =
      (pySet xs i L).map (rows w) := by
  rw [pyGet_pySet_self _ _ _ _ h0 h1, pySet_in xs _ _ h0 h1,
    pySet_in (xs.map (rows w)) _ _ h0 (by unfold llen at h1 ⊢; rw [List.length_map]; omega),
    List.map_append, List.map_cons, List.map_take, List.map_drop]

theorem rowSum_pyPop_after (w : Int) (xs : List Line) (i : Int) (k : Nat)
    (hk : k ≤ i.toNat) (hkl : k ≤ xs.length) :
    rowSum w (pyPop xs i) k = rowSum w xs k := by
  unfold pyPop pyResolve
  split_ifs with hc1 hc2 hc3 hc4
  · show rowSum w (xs.eraseIdx i.toNat) k = rowSum w xs k
    rw [List.eraseIdx_eq_take_drop_succ]
    unfold rowSum
    rw [List.take_append_of_le_length (by rw [List.length_take]; omega), List.take_take,
      min_eq_left hk]
  · rfl
  · show rowSum w (xs.eraseIdx (i + (xs.length : Int)).toNat) k = rowSum w xs k
    rw [List.eraseIdx_eq_take_drop_succ]
    unfold rowSum
    rw [List.take_append_of_le_length (by rw [List.length_take]; omega), List.take_take,
      min_eq_left (by omega)]
  · rfl

theorem inv_delete (cfg : Cfg) (s : TBState) (hw : 0 < cfg.width) (h : Inv cfg s) :
    Inv cfg (delete cfg s).1 := by
  obtain ⟨hA, ⟨hB0, hB1⟩, ⟨hC0, hC1⟩, hD, hE0, hE1⟩ := h
  unfold absRow at hE1
  unfold lineAt at hC1
  unfold delete
  split_ifs with hg
  · exact ⟨hA, ⟨hB0, hB1⟩, ⟨hC0, hC1⟩, hD, hE0, hE1⟩
  · unfold delat
    dsimp only
    split_ifs with hbr
    · -- deletion inside the line
      refine ⟨setline_A cfg s _ hA hB0 hB1, ⟨hB0, ?_⟩, ⟨hC0, ?_⟩, hD, hE0, ?_⟩
      · show s.vpos.1 < llen (pySet s.text s.vpos.1 _)
        rw [llen_pySet]
        exact hB1
      · have hc : s.vpos.2 ≤ llen (pyGet (pySet s.text s.vpos.1
            (pySliceTo (pyGet s.text s.vpos.1 []) s.vpos.2 ++
              pySliceFrom (pyGet s.text s.vpos.1 []) (s.vpos.2 + 1))) s.vpos.1 []) := by
          rw [pyGet_pySet_self _ _ _ _ hB0 hB1, pySliceTo_in _ _ hC0,
            pySliceFrom_in _ _ (by omega)]
          unfold llen at hbr ⊢
          rw [List.length_append, List.length_take, List.length_drop]
          omega
        exact hc
      · have he : s.ppos.1 ≤ rowSum cfg.width (pySet s.text s.vpos.1
            (pySliceTo (pyGet s.text s.vpos.1 []) s.vpos.2 ++
              pySliceFrom (pyGet s.text s.vpos.1 []) (s.vpos.2 + 1))) s.vpos.1.toNat +
            s.vpos.2 / cfg.width := by
          rw [rowSum_pySet_self _ _ _ _ hB0 hB1]
          exact hE1
        exact he
    · -- merge with the next line
      push_neg at hbr
      have hv1 : s.vpos.2 = llen (pyGet s.text s.vpos.1 []) := le_antisymm hC1 hbr
      have hne : s.vpos.1 ≠ llen s.text - 1 := fun hc => hg ⟨hc, hv1⟩
      have hlt : s.vpos.1 + 1 < llen s.text := by omega
      have hcomm := pySet_pyPop_comm s.text s.vpos.1
        (pyGet s.text s.vpos.1 [] ++ pyGet s.text (s.vpos.1 + 1) []) hB0 hlt
      have hlenT : llen (pyPop s.text (s.vpos.1 + 1)) = llen s.text - 1 :=
        llen_pyPop_in s.text _ (by omega) hlt
      have hB1T : s.vpos.1 < llen (pyPop s.text (s.vpos.1 + 1)) := by omega
      refine ⟨?_, ⟨hB0, ?_⟩, ⟨hC0, ?_⟩, hD, hE0, ?_⟩
      · have hgoal : pySet (pyPop s.lcount (s.vpos.1 + 1)) s.vpos.1
            (rows cfg.width (pyGet (pyPop (pySet s.text s.vpos.1
              (pyGet s.text s.vpos.1 [] ++ pyGet s.text (s.vpos.1 + 1) []))
              (s.vpos.1 + 1)) s.vpos.1 [])) =
            (pyPop (pySet s.text s.vpos.1
              (pyGet s.text s.vpos.1 [] ++ pyGet s.text (s.vpos.1 + 1) []))
              (s.vpos.1 + 1)).map (rows cfg.width) := by
          rw [hcomm, hA, map_pyPop]
          exact setline_map cfg.width (pyPop s.text (s.vpos.1 + 1)) s.vpos.1 _ hB0 hB1T
        exact hgoal
      · have hgoal : s.vpos.1 < llen (pyPop (pySet s.text s.vpos.1
            (pyGet s.text s.vpos.1 [] ++ pyGet s.text (s.vpos.1 + 1) []))
            (s.vpos.1 + 1)) := by
          rw [hcomm, llen_pySet, hlenT]
          omega
        exact hgoal
      · have hgoal : s.vpos.2 ≤ llen (pyGet (pyPop (pySet s.text s.vpos.1
            (pyGet s.text s.vpos.1 [] ++ pyGet s.text (s.vpos.1 + 1) []))
            (s.vpos.1 + 1)) s.vpos.1 []) := by
          rw [hcomm, pyGet_pySet_self _ _ _ _ hB0 hB1T]
          unfold llen at hv1 ⊢
          rw [List.length_append]
          push_cast
          omega
        exact hgoal
      · have hgoal : s.ppos.1 ≤ rowSum cfg.width (pyPop (pySet s.text s.vpos.1
            (pyGet s.text s.vpos.1 [] ++ pyGet s.text (s.vpos.1 + 1) []))
            (s.vpos.1 + 1)) s.vpos.1.toNat + s.vpos.2 / cfg.width := by
          rw [hcomm, rowSum_pySet_self _ _ _ _ hB0 hB1T,
            rowSum_pyPop_after cfg.width s.text (s.vpos.1 + 1) s.vpos.1.toNat
              (by omega) (by unfold llen at hB1; omega)]
          exact hE1
        exact hgoal

theorem inv_left (cfg : Cfg) (s : TBState) (hw : 0 < cfg.width) (hn : cfg.n_sc = 1)
    (h : Inv cfg s) : Inv cfg (move_left s cfg).1 := by
  obtain ⟨hA, ⟨hB0, hB1⟩, ⟨hC0, hC1⟩, hD, hE0, hE1⟩ := h
  unfold absRow at hE1
  unfold lineAt at hC1
  obtain ⟨hm0, hm1⟩ := emod_bounds cfg.width s.vpos.2 hw
  have hpred := divmod_pred cfg.width s.vpos.2 hw
  unfold move_left
  dsimp only
  split_ifs with h1 h2 h3 h4 h4
  · -- column decrement
    rw [hD] at h1
    have hv1pos : 0 < s.vpos.2 := by
      by_contra hcon
      have hz : s.vpos.2 = 0 := le_antisymm (not_lt.mp hcon) hC0
      rw [hz, Int.zero_emod] at h1
      exact lt_irrefl 0 h1
    have hcne : ¬s.vpos.2 % cfg.width = 0 := by omega
    simp only [if_neg hcne] at hpred
    refine ⟨hA, ⟨hB0, hB1⟩, ⟨?_, ?_⟩, ?_, hE0, ?_⟩
    · show (0 : Int) ≤ s.vpos.2 - 1
      omega
    · show s.vpos.2 - 1 ≤ llen (pyGet s.text s.vpos.1 [])
      omega
    · show s.ppos.2 - 1 = (s.vpos.2 - 1) % cfg.width
      rw [hpred.2, hD]
    · show s.ppos.1 ≤ rowSum cfg.width s.text s.vpos.1.toNat + (s.vpos.2 - 1) / cfg.width
      rw [hpred.1]
      exact hE1
  · exact ⟨hA, ⟨hB0, hB1⟩, ⟨hC0, hC1⟩, hD, hE0, hE1⟩
  all_goals have hp2 : s.ppos.2 = 0 := by omega
  all_goals rw [hD] at hp2
  · -- scrolled, cross to the previous logical line
    replace h4 : s.vpos.2 = 0 := h4
    have hv0 : 1 ≤ s.vpos.1 := by
      rcases eq_or_lt_of_le hB0 with hz | hz
      · exact absurd ⟨hz.symm, h4⟩ h2
      · omega
    rw [h4, Int.zero_ediv] at hE1
    have hrs := rowSum_succ cfg.width s.text (s.vpos.1 - 1).toNat
      (by unfold llen at hB1; omega)
    rw [show (s.vpos.1 - 1).toNat + 1 = s.vpos.1.toNat by omega] at hrs
    have hgd : pyGet s.text (s.vpos.1 - 1) [] = s.text.getD (s.vpos.1 - 1).toNat [] :=
      pyGet_in s.text _ [] (by omega) (by omega)
    have hge := rowSum_ge cfg.width s.text s.vpos.1.toNat hw (by unfold llen at hB1; omega)
    refine ⟨hA, ⟨?_, ?_⟩, ⟨llen_nonneg _, le_rfl⟩, rfl, ?_, ?_⟩
    · show (0 : Int) ≤ s.vpos.1 - 1
      omega
    · show s.vpos.1 - 1 < llen s.text
      omega
    · show 0 ≤ s.ppos.1 - -cfg.n_sc - 1
      rw [hn, h3]
      norm_num
    · show s.ppos.1 - -cfg.n_sc - 1 ≤ rowSum cfg.width s.text (s.vpos.1 - 1).toNat +
        llen (pyGet s.text (s.vpos.1 - 1) []) / cfg.width
      rw [hn, h3, hgd]
      have hrw : rows cfg.width (s.text.getD (s.vpos.1 - 1).toNat []) =
          llen (s.text.getD (s.vpos.1 - 1).toNat []) / cfg.width + 1 := rfl
      omega
  · -- scrolled, move up inside the same logical line
    replace h4 : ¬s.vpos.2 = 0 := h4
    have hv1pos : 1 ≤ s.vpos.2 := by omega
    have he := Int.ediv_add_emod s.vpos.2 cfg.width
    have hq1 : 1 ≤ s.vpos.2 / cfg.width := by nlinarith
    simp only [if_pos hp2] at hpred
    have hrsn := rowSum_nonneg cfg.width s.text s.vpos.1.toNat hw
    refine ⟨hA, ⟨hB0, hB1⟩, ⟨?_, ?_⟩, ?_, ?_, ?_⟩
    · show (0 : Int) ≤ s.vpos.2 - 1
      omega
    · show s.vpos.2 - 1 ≤ llen (pyGet s.text s.vpos.1 [])
      omega
    · show cfg.maxx = (s.vpos.2 - 1) % cfg.width
      rw [hpred.2]
      rfl
    · show 0 ≤ s.ppos.1 - -cfg.n_sc - 1
      rw [hn, h3]
      norm_num
    · show s.ppos.1 - -cfg.n_sc - 1 ≤ rowSum cfg.width s.text s.vpos.1.toNat +
        (s.vpos.2 - 1) / cfg.width
      rw [hn, h3, hpred.1]
      omega
  · -- unscrolled, cross to the previous logical line
    replace h4 : s.vpos.2 = 0 := h4
    have hv0 : 1 ≤ s.vpos.1 := by
      rcases eq_or_lt_of_le hB0 with hz | hz
      · exact absurd ⟨hz.symm, h4⟩ h2
      · omega
    rw [h4, Int.zero_ediv] at hE1
    have hrs := rowSum_succ cfg.width s.text (s.vpos.1 - 1).toNat
      (by unfold llen at hB1; omega)
    rw [show (s.vpos.1 - 1).toNat + 1 = s.vpos.1.toNat by omega] at hrs
    have hgd : pyGet s.text (s.vpos.1 - 1) [] = s.text.getD (s.vpos.1 - 1).toNat [] :=
      pyGet_in s.text _ [] (by omega) (by omega)
    refine ⟨hA, ⟨?_, ?_⟩, ⟨llen_nonneg _, le_rfl⟩, rfl, ?_, ?_⟩
    · show (0 : Int) ≤ s.vpos.1 - 1
      omega
    · show s.vpos.1 - 1 < llen s.text
      omega
    · show 0 ≤ s.ppos.1 - 1
      omega
    · show s.ppos.1 - 1 ≤ rowSum cfg.width s.text (s.vpos.1 - 1).toNat +
        llen (pyGet s.text (s.vpos.1 - 1) []) / cfg.width
      rw [hgd]
      have hrw : rows cfg.width (s.text.getD (s.vpos.1 - 1).toNat []) =
          llen (s.text.getD (s.vpos.1 - 1).toNat []) / cfg.width + 1 := rfl
      omega
  · -- unscrolled, move up inside the same logical line
    replace h4 : ¬s.vpos.2 = 0 := h4
    have hv1pos : 1 ≤ s.vpos.2 := by omega
    have he := Int.ediv_add_emod s.vpos.2 cfg.width
    have hq1 : 1 ≤ s.vpos.2 / cfg.width := by nlinarith
    simp only [if_pos hp2] at hpred
    refine ⟨hA, ⟨hB0, hB1⟩, ⟨?_, ?_⟩, ?_, ?_, ?_⟩
    · show (0 : Int) ≤ s.vpos.2 - 1
      omega
    · show s.vpos.2 - 1 ≤ llen (pyGet s.text s.vpos.1 [])
      omega
    · show cfg.maxx = (s.vpos.2 - 1) % cfg.width
      rw [hpred.2]
      rfl
    · show 0 ≤ s.ppos.1 - 1
      omega
    · show s.ppos.1 - 1 ≤ rowSum cfg.width s.text s.vpos.1.toNat +
        (s.vpos.2 - 1) / cfg.width
      rw [hpred.1]
      omega

theorem inv_right (cfg : Cfg) (s : TBState) (hw : 0 < cfg.width) (hh : 1 ≤ cfg.height)
    (hn : cfg.n_sc = 1) (h : Inv cfg s) : Inv cfg (move_right s cfg).1 := by
  obtain ⟨hA, ⟨hB0, hB1⟩, ⟨hC0, hC1⟩, hD, hE0, hE1⟩ := h
  unfold absRow at hE1
  unfold lineAt at hC1
  obtain ⟨hm0, hm1⟩ := emod_bounds cfg.width s.vpos.2 hw
  have hsucc := divmod_succ cfg.width s.vpos.2 hw
  have hmy : cfg.maxy = cfg.height - 1 := rfl
  have hmx : cfg.maxx = cfg.width - 1 := rfl
  have hrs := rowSum_succ cfg.width s.text s.vpos.1.toNat (by unfold llen at hB1; omega)
  have hgd : pyGet s.text s.vpos.1 [] = s.text.getD s.vpos.1.toNat [] :=
    pyGet_in s.text _ [] hB0 hB1
  have hrw : rows cfg.width (s.text.getD s.vpos.1.toNat []) =
      llen (s.text.getD s.vpos.1.toNat []) / cfg.width + 1 := rfl
  unfold move_right
  dsimp only
  split_ifs with h1 h2 h3 h4 h4
  · -- column increment
    obtain ⟨h1a, h1b⟩ := h1
    rw [hD, hmx] at h1a
    have hne : ¬s.vpos.2 % cfg.width + 1 = cfg.width := by omega
    simp only [if_neg hne] at hsucc
    refine ⟨hA, ⟨hB0, hB1⟩, ⟨?_, ?_⟩, ?_, hE0, ?_⟩
    · show (0 : Int) ≤ s.vpos.2 + 1
      omega
    · show s.vpos.2 + 1 ≤ llen (pyGet s.text s.vpos.1 [])
      unfold lineAt at h1b
      omega
    · show s.ppos.2 + 1 = (s.vpos.2 + 1) % cfg.width
      rw [hsucc.2, hD]
    · show s.ppos.1 ≤ rowSum cfg.width s.text s.vpos.1.toNat + (s.vpos.2 + 1) / cfg.width
      rw [hsucc.1]
      exact hE1
  · exact ⟨hA, ⟨hB0, hB1⟩, ⟨hC0, hC1⟩, hD, hE0, hE1⟩
  · -- scrolled, cross to the start of the next logical line
    replace h4 : s.vpos.2 = llen (lineAt s s.vpos.1) := h4
    unfold lineAt at h4
    have hv0lt : s.vpos.1 + 1 < llen s.text := by
      rcases eq_or_lt_of_le (by omega : s.vpos.1 + 1 ≤ llen s.text) with hz | hz
      · exact absurd ⟨hz, by unfold lineAt; omega⟩ h2
      · exact hz
    refine ⟨hA, ⟨?_, ?_⟩, ⟨le_rfl, llen_nonneg _⟩, ?_, ?_, ?_⟩
    · show (0 : Int) ≤ s.vpos.1 + 1
      omega
    · show s.vpos.1 + 1 < llen s.text
      omega
    · show (0 : Int) = 0 % cfg.width
      rw [Int.zero_emod]
    · show 0 ≤ s.ppos.1 - cfg.n_sc + 1
      rw [hn, h3]
      omega
    · show s.ppos.1 - cfg.n_sc + 1 ≤
        rowSum cfg.width s.text (s.vpos.1 + 1).toNat + 0 / cfg.width
      rw [hn, h3, Int.zero_ediv, show (s.vpos.1 + 1).toNat = s.vpos.1.toNat + 1 by omega]
      rw [hgd] at h4
      have hdv : s.vpos.2 / cfg.width = llen (s.text.getD s.vpos.1.toNat []) / cfg.width := by
        rw [h4]
      omega
  · -- scrolled, wrap to the next display row of the same logical line
    replace h4 : ¬s.vpos.2 = llen (lineAt s s.vpos.1) := h4
    unfold lineAt at h4
    have h1' : ¬(s.ppos.2 < cfg.maxx ∧ s.vpos.2 < llen (lineAt s s.vpos.1)) := h1
    unfold lineAt at h1'
    have hp2 : s.vpos.2 % cfg.width + 1 = cfg.width := by
      rw [hD, hmx] at h1'
      omega
    simp only [if_pos hp2] at hsucc
    refine ⟨hA, ⟨hB0, hB1⟩, ⟨?_, ?_⟩, ?_, ?_, ?_⟩
    · show (0 : Int) ≤ s.vpos.2 + 1
      omega
    · show s.vpos.2 + 1 ≤ llen (pyGet s.text s.vpos.1 [])
      omega
    · show (0 : Int) = (s.vpos.2 + 1) % cfg.width
      rw [hsucc.2]
    · show 0 ≤ s.ppos.1 - cfg.n_sc + 1
      rw [hn, h3]
      omega
    · show s.ppos.1 - cfg.n_sc + 1 ≤
        rowSum cfg.width s.text s.vpos.1.toNat + (s.vpos.2 + 1) / cfg.width
      rw [hn, h3, hsucc.1]
      omega
  · -- unscrolled, cross to the start of the next logical line
    replace h4 : s.vpos.2 = llen (lineAt s s.vpos.1) := h4
    unfold lineAt at h4
    have hv0lt : s.vpos.1 + 1 < llen s.text := by
      rcases eq_or_lt_of_le (by omega : s.vpos.1 + 1 ≤ llen s.text) with hz | hz
      · exact absurd ⟨hz, by unfold lineAt; omega⟩ h2
      · exact hz
    refine ⟨hA, ⟨?_, ?_⟩, ⟨le_rfl, llen_nonneg _⟩, ?_, ?_, ?_⟩
    · show (0 : Int) ≤ s.vpos.1 + 1
      omega
    · show s.vpos.1 + 1 < llen s.text
      omega
    · show (0 : Int) = 0 % cfg.width
      rw [Int.zero_emod]
    · show 0 ≤ s.ppos.1 + 1
      omega
    · show s.ppos.1 + 1 ≤ rowSum cfg.width s.text (s.vpos.1 + 1).toNat + 0 / cfg.width
      rw [Int.zero_ediv, show (s.vpos.1 + 1).toNat = s.vpos.1.toNat + 1 by omega]
      rw [hgd] at h4
      have hdv : s.vpos.2 / cfg.width = llen (s.text.getD s.vpos.1.toNat []) / cfg.width := by
        rw [h4]
      omega
  · -- unscrolled, wrap to the next display row of the same logical line
    replace h4 : ¬s.vpos.2 = llen (lineAt s s.vpos.1) := h4
    unfold lineAt at h4
    have h1' : ¬(s.ppos.2 < cfg.maxx ∧ s.vpos.2 < llen (lineAt s s.vpos.1)) := h1
    unfold lineAt at h1'
    have hp2 : s.vpos.2 % cfg.width + 1 = cfg.width := by
      rw [hD, hmx] at h1'
      omega
    simp only [if_pos hp2] at hsucc
    refine ⟨hA, ⟨hB0, hB1⟩, ⟨?_, ?_⟩, ?_, ?_, ?_⟩
    · show (0 : Int) ≤ s.vpos.2 + 1
      omega
    · show s.vpos.2 + 1 ≤ llen (pyGet s.text s.vpos.1 [])
      omega
    · show (0 : Int) = (s.vpos.2 + 1) % cfg.width
      rw [hsucc.2]
    · show 0 ≤ s.ppos.1 + 1
      omega
    · show s.ppos.1 + 1 ≤ rowSum cfg.width s.text s.vpos.1.toNat + (s.vpos.2 + 1) / cfg.width
      rw [hsucc.1]
      omega

theorem inv_down (cfg : Cfg) (s : TBState) (hw : 0 < cfg.width) (hh : 1 ≤ cfg.height)
    (hn : cfg.n_sc = 1) (h : Inv cfg s) : Inv cfg (move_down s cfg).1 := by
  obtain ⟨hA, ⟨hB0, hB1⟩, ⟨hC0, hC1⟩, hD, hE0, hE1⟩ := h
  unfold absRow at hE1
  unfold lineAt at hC1
  obtain ⟨hm0, hm1⟩ := emod_bounds cfg.width s.vpos.2 hw
  have hlc := lcount_get cfg s hA s.vpos.1 hB0 hB1
  unfold lineAt rows at hlc
  have hmy : cfg.maxy = cfg.height - 1 := rfl
  have hrs := rowSum_succ cfg.width s.text s.vpos.1.toNat (by unfold llen at hB1; omega)
  have hgd : pyGet s.text s.vpos.1 [] = s.text.getD s.vpos.1.toNat [] :=
    pyGet_in s.text _ [] hB0 hB1
  have hrw : rows cfg.width (s.text.getD s.vpos.1.toNat []) =
      llen (s.text.getD s.vpos.1.toNat []) / cfg.width + 1 := rfl
  have haw := divmod_add_w cfg.width s.vpos.2 hw
  have hup : s.vpos.2 / cfg.width + 1 < pyGet s.lcount s.vpos.1 0 →
      min (s.vpos.2 + cfg.width) (llen (pyGet s.text s.vpos.1 [])) / cfg.width =
        s.vpos.2 / cfg.width + 1 := by
    intro h3
    rw [hlc] at h3
    rcases le_or_lt (s.vpos.2 + cfg.width) (llen (pyGet s.text s.vpos.1 [])) with hcl | hcl
    · rw [min_eq_left hcl, haw.1]
    · rw [min_eq_right (by omega)]
      have hmono := Int.ediv_le_ediv hw
        (show llen (pyGet s.text s.vpos.1 []) - cfg.width ≤ s.vpos.2 by omega)
      have hsw := divmod_sub_w cfg.width (llen (pyGet s.text s.vpos.1 [])) hw
      omega
  have hcross : ¬s.vpos.2 / cfg.width + 1 < pyGet s.lcount s.vpos.1 0 →
      ¬(s.vpos.1 + 1 = llen s.text ∧ s.vpos.2 / cfg.width + 1 = pyGet s.lcount s.vpos.1 0) →
      s.vpos.2 / cfg.width = llen (pyGet s.text s.vpos.1 []) / cfg.width ∧
        s.vpos.1 + 1 < llen s.text ∧
        min (s.vpos.2 % cfg.width) (llen (pyGet s.text (s.vpos.1 + 1) [])) / cfg.width = 0 := by
    intro h3 h1
    rw [hlc] at h3
    have hveq : s.vpos.2 / cfg.width = llen (pyGet s.text s.vpos.1 []) / cfg.width :=
      le_antisymm (Int.ediv_le_ediv hw hC1) (by omega)
    refine ⟨hveq, ?_, ?_⟩
    · rcases eq_or_lt_of_le (by omega : s.vpos.1 + 1 ≤ llen s.text) with hz | hz
      · exact absurd ⟨hz, by rw [hlc]; omega⟩ h1
      · exact hz
    · have := llen_nonneg (pyGet s.text (s.vpos.1 + 1) [])
      exact Int.ediv_eq_zero_of_lt (by omega) (by omega)
  unfold move_down
  dsimp only
  split_ifs with h1 h2 h3 h3
  · exact ⟨hA, ⟨hB0, hB1⟩, ⟨hC0, hC1⟩, hD, hE0, hE1⟩
  · -- scrolled, move down inside the same logical line
    replace h3 : s.vpos.2 / cfg.width + 1 < pyGet s.lcount s.vpos.1 0 := h3
    have hupe := hup h3
    rw [hlc] at h3
    refine ⟨hA, ⟨hB0, hB1⟩, ⟨?_, ?_⟩, rfl, ?_, ?_⟩
    · show (0 : Int) ≤ min (s.vpos.2 + cfg.width) (llen (lineAt s s.vpos.1))
      unfold lineAt
      have := llen_nonneg (pyGet s.text s.vpos.1 [])
      omega
    · show min (s.vpos.2 + cfg.width) (llen (lineAt s s.vpos.1)) ≤
        llen (pyGet s.text s.vpos.1 [])
      unfold lineAt
      omega
    · show 0 ≤ s.ppos.1 - cfg.n_sc + 1
      rw [hn, h2]
      omega
    · show s.ppos.1 - cfg.n_sc + 1 ≤ rowSum cfg.width s.text s.vpos.1.toNat +
        min (s.vpos.2 + cfg.width) (llen (lineAt s s.vpos.1)) / cfg.width
      unfold lineAt
      rw [hn, h2, hupe]
      omega
  · -- scrolled, cross to the corresponding column of the next logical line
    replace h3 : ¬s.vpos.2 / cfg.width + 1 < pyGet s.lcount s.vpos.1 0 := h3
    obtain ⟨hveq, hv0lt, hz0⟩ := hcross h3 h1
    rw [hgd] at hveq
    refine ⟨hA, ⟨?_, ?_⟩, ⟨?_, ?_⟩, rfl, ?_, ?_⟩
    · show (0 : Int) ≤ s.vpos.1 + 1
      omega
    · show s.vpos.1 + 1 < llen s.text
      omega
    · show (0 : Int) ≤ min (s.vpos.2 % cfg.width) (llen (lineAt s (s.vpos.1 + 1)))
      unfold lineAt
      have := llen_nonneg (pyGet s.text (s.vpos.1 + 1) [])
      omega
    · show min (s.vpos.2 % cfg.width) (llen (lineAt s (s.vpos.1 + 1))) ≤
        llen (pyGet s.text (s.vpos.1 + 1) [])
      unfold lineAt
      omega
    · show 0 ≤ s.ppos.1 - cfg.n_sc + 1
      rw [hn, h2]
      omega
    · show s.ppos.1 - cfg.n_sc + 1 ≤ rowSum cfg.width s.text (s.vpos.1 + 1).toNat +
        min (s.vpos.2 % cfg.width) (llen (lineAt s (s.vpos.1 + 1))) / cfg.width
      unfold lineAt
      rw [hn, h2, hz0, show (s.vpos.1 + 1).toNat = s.vpos.1.toNat + 1 by omega]
      omega
  · -- unscrolled, move down inside the same logical line
    replace h3 : s.vpos.2 / cfg.width + 1 < pyGet s.lcount s.vpos.1 0 := h3
    have hupe := hup h3
    rw [hlc] at h3
    refine ⟨hA, ⟨hB0, hB1⟩, ⟨?_, ?_⟩, rfl, ?_, ?_⟩
    · show (0 : Int) ≤ min (s.vpos.2 + cfg.width) (llen (lineAt s s.vpos.1))
      unfold lineAt
      have := llen_nonneg (pyGet s.text s.vpos.1 [])
      omega
    · show min (s.vpos.2 + cfg.width) (llen (lineAt s s.vpos.1)) ≤
        llen (pyGet s.text s.vpos.1 [])
      unfold lineAt
      omega
    · show 0 ≤ s.ppos.1 + 1
      omega
    · show s.ppos.1 + 1 ≤ rowSum cfg.width s.text s.vpos.1.toNat +
        min (s.vpos.2 + cfg.width) (llen (lineAt s s.vpos.1)) / cfg.width
      unfold lineAt
      rw [hupe]
      omega
  · -- unscrolled, cross to the corresponding column of the next logical line
    replace h3 : ¬s.vpos.2 / cfg.width + 1 < pyGet s.lcount s.vpos.1 0 := h3
    obtain ⟨hveq, hv0lt, hz0⟩ := hcross h3 h1
    rw [hgd] at hveq
    refine ⟨hA, ⟨?_, ?_⟩, ⟨?_, ?_⟩, rfl, ?_, ?_⟩
    · show (0 : Int) ≤ s.vpos.1 + 1
      omega
    · show s.vpos.1 + 1 < llen s.text
      omega
    · show (0 : Int) ≤ min (s.vpos.2 % cfg.width) (llen (lineAt s (s.vpos.1 + 1)))
      unfold lineAt
      have := llen_nonneg (pyGet s.text (s.vpos.1 + 1) [])
      omega
    · show min (s.vpos.2 % cfg.width) (llen (lineAt s (s.vpos.1 + 1))) ≤
        llen (pyGet s.text (s.vpos.1 + 1) [])
      unfold lineAt
      omega
    · show 0 ≤ s.ppos.1 + 1
      omega
    · show s.ppos.1 + 1 ≤ rowSum cfg.width s.text (s.vpos.1 + 1).toNat +
        min (s.vpos.2 % cfg.width) (llen (lineAt s (s.vpos.1 + 1))) / cfg.width
      unfold lineAt
      rw [hz0, show (s.vpos.1 + 1).toNat = s.vpos.1.toNat + 1 by omega]
      omega

theorem up_cross_key (w v1 ll : Int) (hw : 0 < w) (h0 : 0 ≤ v1) (h1 : v1 < w)
    (hll : 0 ≤ ll) :
    min (ll / w * w + v1) ll / w = ll / w ∧
      min (ll / w * w + v1) ll % w = min v1 (ll % w) ∧
      0 ≤ min (ll / w * w + v1) ll := by
  have he := Int.ediv_add_emod ll w
  obtain ⟨hr0, hr1⟩ := emod_bounds w ll hw
  have hq0 : 0 ≤ ll / w := Int.ediv_nonneg hll hw.le
  have hqw : ll / w * w = w * (ll / w) := mul_comm _ _
  have hqnn : 0 ≤ ll / w * w := by rw [hqw]; exact mul_nonneg hw.le hq0
  rcases le_or_lt v1 (ll % w) with hsp | hsp
  · have hmin : min (ll / w * w + v1) ll = ll / w * w + v1 := min_eq_left (by linarith)
    have hdm := split_div_mod w (ll / w) v1 (ll / w * w + v1) hw h0 h1 (by linarith)
    rw [hmin]
    exact ⟨hdm.1, by rw [hdm.2]; exact (min_eq_left hsp).symm, by linarith⟩
  · have hmin : min (ll / w * w + v1) ll = ll := min_eq_right (by linarith)
    rw [hmin]
    exact ⟨rfl, (min_eq_right hsp.le).symm, hll⟩

theorem inv_up (cfg : Cfg) (s : TBState) (hw : 0 < cfg.width) (hn : cfg.n_sc = 1)
    (h : Inv cfg s) : Inv cfg (move_up s cfg).1 := by
  obtain ⟨hA, ⟨hB0, hB1⟩, ⟨hC0, hC1⟩, hD, hE0, hE1⟩ := h
  unfold absRow at hE1
  unfold lineAt at hC1
  obtain ⟨hm0, hm1⟩ := emod_bounds cfg.width s.vpos.2 hw
  have hsw := divmod_sub_w cfg.width s.vpos.2 hw
  have hrsn := rowSum_nonneg cfg.width s.text s.vpos.1.toNat hw
  have hge := rowSum_ge cfg.width s.text s.vpos.1.toNat hw (by unfold llen at hB1; omega)
  have hz : s.vpos.2 < cfg.width → s.vpos.2 % cfg.width = s.vpos.2 := fun hlt =>
    Int.emod_eq_of_lt hC0 hlt
  have hdv0 : s.vpos.2 < cfg.width → s.vpos.2 / cfg.width = 0 := fun hlt =>
    Int.ediv_eq_zero_of_lt hC0 hlt
  have hgd1 : 1 ≤ s.vpos.1 →
      pyGet s.text (s.vpos.1 - 1) [] = s.text.getD (s.vpos.1 - 1).toNat [] := fun hv =>
    pyGet_in s.text _ [] (by omega) (by omega)
  have hrs1 : 1 ≤ s.vpos.1 →
      rowSum cfg.width s.text s.vpos.1.toNat =
        rowSum cfg.width s.text (s.vpos.1 - 1).toNat +
          llen (s.text.getD (s.vpos.1 - 1).toNat []) / cfg.width + 1 := by
    intro hv
    have hr := rowSum_succ cfg.width s.text (s.vpos.1 - 1).toNat (by unfold llen at hB1; omega)
    rw [show (s.vpos.1 - 1).toNat + 1 = s.vpos.1.toNat by omega] at hr
    have hrw : rows cfg.width (s.text.getD (s.vpos.1 - 1).toNat []) =
        llen (s.text.getD (s.vpos.1 - 1).toNat []) / cfg.width + 1 := rfl
    omega
  have hdivw : cfg.width ≤ s.vpos.2 → 1 ≤ s.vpos.2 / cfg.width := by
    intro hge'
    have h2 := Int.ediv_le_ediv hw hge'
    rw [Int.ediv_self (by omega : cfg.width ≠ 0)] at h2
    exact h2
  unfold move_up
  dsimp only
  split_ifs with h1 h2 h3 h3
  · exact ⟨hA, ⟨hB0, hB1⟩, ⟨hC0, hC1⟩, hD, hE0, hE1⟩
  · -- scrolled, cross to the previous logical line
    replace h3 : s.vpos.2 < cfg.width := h3
    have hv0 : 1 ≤ s.vpos.1 := by
      by_contra hcon
      exact h1 ⟨h2, by omega, h3⟩
    have hkey := up_cross_key cfg.width s.vpos.2 (llen (pyGet s.text (s.vpos.1 - 1) []))
      hw hC0 h3 (llen_nonneg _)
    refine ⟨hA, ⟨?_, ?_⟩, ⟨?_, ?_⟩, ?_, ?_, ?_⟩
    · show (0 : Int) ≤ s.vpos.1 - 1
      omega
    · show s.vpos.1 - 1 < llen s.text
      omega
    · show (0 : Int) ≤ min (llen (lineAt s (s.vpos.1 - 1)) / cfg.width * cfg.width + s.vpos.2)
        (llen (lineAt s (s.vpos.1 - 1)))
      unfold lineAt
      exact hkey.2.2
    · show min (llen (lineAt s (s.vpos.1 - 1)) / cfg.width * cfg.width + s.vpos.2)
        (llen (lineAt s (s.vpos.1 - 1))) ≤ llen (pyGet s.text (s.vpos.1 - 1) [])
      unfold lineAt
      exact min_le_right _ _
    · show min s.ppos.2 (llen (lineAt s (s.vpos.1 - 1)) % cfg.width) =
        min (llen (lineAt s (s.vpos.1 - 1)) / cfg.width * cfg.width + s.vpos.2)
          (llen (lineAt s (s.vpos.1 - 1))) % cfg.width
      unfold lineAt
      rw [hkey.2.1, hD, hz h3]
    · show 0 ≤ s.ppos.1 - -cfg.n_sc - 1
      rw [hn, h2]
      norm_num
    · show s.ppos.1 - -cfg.n_sc - 1 ≤ rowSum cfg.width s.text (s.vpos.1 - 1).toNat +
        min (llen (lineAt s (s.vpos.1 - 1)) / cfg.width * cfg.width + s.vpos.2)
          (llen (lineAt s (s.vpos.1 - 1))) / cfg.width
      unfold lineAt
      rw [hn, h2, hkey.1, hgd1 hv0]
      have := hrs1 hv0
      omega
  · -- scrolled, move up one wrap row inside the same logical line
    replace h3 : ¬s.vpos.2 < cfg.width := h3
    have hq1 := hdivw (by omega)
    refine ⟨hA, ⟨hB0, hB1⟩, ⟨?_, ?_⟩, ?_, ?_, ?_⟩
    · show (0 : Int) ≤ s.vpos.2 - cfg.width
      omega
    · show s.vpos.2 - cfg.width ≤ llen (pyGet s.text s.vpos.1 [])
      omega
    · show s.ppos.2 = (s.vpos.2 - cfg.width) % cfg.width
      rw [hsw.2, hD]
    · show 0 ≤ s.ppos.1 - -cfg.n_sc - 1
      rw [hn, h2]
      norm_num
    · show s.ppos.1 - -cfg.n_sc - 1 ≤ rowSum cfg.width s.text s.vpos.1.toNat +
        (s.vpos.2 - cfg.width) / cfg.width
      rw [hn, h2, hsw.1]
      omega
  · -- unscrolled, cross to the previous logical line
    replace h3 : s.vpos.2 < cfg.width := h3
    have hv0 : 1 ≤ s.vpos.1 := by
      by_contra hcon
      have hvz : s.vpos.1 = 0 := by omega
      have : s.vpos.1.toNat = 0 := by omega
      rw [this] at hE1
      have hz0 : rowSum cfg.width s.text 0 = 0 := rfl
      rw [hdv0 h3] at hE1
      omega
    have hkey := up_cross_key cfg.width s.vpos.2 (llen (pyGet s.text (s.vpos.1 - 1) []))
      hw hC0 h3 (llen_nonneg _)
    have hp1 : 1 ≤ s.ppos.1 := by omega
    refine ⟨hA, ⟨?_, ?_⟩, ⟨?_, ?_⟩, ?_, ?_, ?_⟩
    · show (0 : Int) ≤ s.vpos.1 - 1
      omega
    · show s.vpos.1 - 1 < llen s.text
      omega
    · show (0 : Int) ≤ min (llen (lineAt s (s.vpos.1 - 1)) / cfg.width * cfg.width + s.vpos.2)
        (llen (lineAt s (s.vpos.1 - 1)))
      unfold lineAt
      exact hkey.2.2
    · show min (llen (lineAt s (s.vpos.1 - 1)) / cfg.width * cfg.width + s.vpos.2)
        (llen (lineAt s (s.vpos.1 - 1))) ≤ llen (pyGet s.text (s.vpos.1 - 1) [])
      unfold lineAt
      exact min_le_right _ _
    · show min s.ppos.2 (llen (lineAt s (s.vpos.1 - 1)) % cfg.width) =
        min (llen (lineAt s (s.vpos.1 - 1)) / cfg.width * cfg.width + s.vpos.2)
          (llen (lineAt s (s.vpos.1 - 1))) % cfg.width
      unfold lineAt
      rw [hkey.2.1, hD, hz h3]
    · show 0 ≤ s.ppos.1 - 1
      omega
    · show s.ppos.1 - 1 ≤ rowSum cfg.width s.text (s.vpos.1 - 1).toNat +
        min (llen (lineAt s (s.vpos.1 - 1)) / cfg.width * cfg.width + s.vpos.2)
          (llen (lineAt s (s.vpos.1 - 1))) / cfg.width
      unfold lineAt
      rw [hkey.1, hgd1 hv0]
      have := hrs1 hv0
      rw [hdv0 h3] at hE1
      omega
  · -- unscrolled, move up one wrap row inside the same logical line
    replace h3 : ¬s.vpos.2 < cfg.width := h3
    have hq1 := hdivw (by omega)
    have hp1 : 1 ≤ s.ppos.1 := by omega
    refine ⟨hA, ⟨hB0, hB1⟩, ⟨?_, ?_⟩, ?_, ?_, ?_⟩
    · show (0 : Int) ≤ s.vpos.2 - cfg.width
      omega
    · show s.vpos.2 - cfg.width ≤ llen (pyGet s.text s.vpos.1 [])
      omega
    · show s.ppos.2 = (s.vpos.2 - cfg.width) % cfg.width
      rw [hsw.2, hD]
    · show 0 ≤ s.ppos.1 - 1
      omega
    · show s.ppos.1 - 1 ≤ rowSum cfg.width s.text s.vpos.1.toNat +
        (s.vpos.2 - cfg.width) / cfg.width
      rw [hsw.1]
      omega

theorem getD_take (l : List α) (n k : Nat) (d : α) (h : k < n) :
    (l.take n).getD k d = l.getD k d := by
  rcases lt_or_le k l.length with hk | hk
  · rw [List.getD_eq_getElem _ _ (by rw [List.length_take]; omega),
      List.getD_eq_getElem _ _ hk, List.getElem_take]
  · rw [List.getD_eq_default _ _ (by rw [List.length_take]; omega),
      List.getD_eq_default _ _ hk]

theorem inv_insert (cfg : Cfg) (s : TBState) (c : Char) (hw : 0 < cfg.width)
    (hh : 1 ≤ cfg.height) (hn : cfg.n_sc = 1) (h : Inv cfg s) :
    Inv cfg (_insert_printable_char cfg s c).1 := by
  obtain ⟨hA, ⟨hB0, hB1⟩, ⟨hC0, hC1⟩, hD, hE0, hE1⟩ := h
  unfold absRow at hE1
  unfold lineAt at hC1
  obtain ⟨hm0, hm1⟩ := emod_bounds cfg.width s.vpos.2 hw
  have hcol := colInv_insert cfg s c hw ⟨hC0, hD⟩
  have hsucc := divmod_succ cfg.width s.vpos.2 hw
  have hmy : cfg.maxy = cfg.height - 1 := rfl
  have hmx : cfg.maxx = cfg.width - 1 := rfl
  have hp := insert_ppos cfg s c
  refine ⟨?_, ⟨?_, ?_⟩, ⟨hcol.1, ?_⟩, hcol.2, ?_, ?_⟩
  · rw [insert_lcount, insert_text]
    exact setline_A cfg s _ hA hB0 hB1
  · rw [insert_vpos]
    exact hB0
  · rw [insert_vpos, insert_text]
    show s.vpos.1 < llen (pySet s.text s.vpos.1 _)
    rw [llen_pySet]
    exact hB1
  · unfold lineAt
    rw [insert_vpos, insert_text]
    show s.vpos.2 + 1 ≤ llen (pyGet (pySet s.text s.vpos.1 _) s.vpos.1 [])
    rw [pyGet_pySet_self _ _ _ _ hB0 hB1]
    unfold lineAt
    rw [pySliceTo_in _ _ hC0, pySliceFrom_in _ _ hC0]
    unfold llen at hC1 ⊢
    rw [List.length_append, List.length_take, List.length_cons, List.length_drop]
    push_cast
    omega
  · rw [hp]
    dsimp only
    split_ifs with h1 h2 h2 <;> omega
  · unfold absRow
    rw [hp, insert_text, insert_vpos]
    dsimp only
    rw [rowSum_pySet_self _ _ _ _ hB0 hB1, hsucc.1]
    split_ifs with h1 h2 h3 h3 h2 h3 h3 <;> omega


/-! ### Newline: splicing lemmas -/

theorem pyInsertAt_map (f : Line → Int) (xs : List Line) (i : Int) (L : Line) :
    pyInsertAt (xs.map f) i (f L) = (pyInsertAt xs i L).map f := by
  unfold pyInsertAt
  dsimp only
  rw [List.length_map, List.map_append, List.map_cons, List.map_take, List.map_drop]

theorem pySet_map (f : Line → Int) (xs : List Line) (i : Int) (L : Line) :
    pySet (xs.map f) i (f L) = (pySet xs i L).map f := by
  unfold pySet
  rw [show (xs.map f).length = xs.length by simp]
  cases pyResolve xs.length i with
  | none => rfl
  | some j => simp

theorem llen_pyInsertAt (xs : List α) (i : Int) (v : α) :
    llen (pyInsertAt xs i v) = llen xs + 1 := by
  unfold pyInsertAt llen
  dsimp only
  rw [List.length_append, List.length_cons, List.length_take, List.length_drop]
  split_ifs <;> omega

theorem drop_at_length (A B : List α) (n : Nat) (h : A.length = n) :
    (A ++ B).drop n = B := by
  subst h
  simp

theorem getD_after_middle_of (A B : List α) (L d : α) (n : Nat) (h : A.length = n) :
    (A ++ L :: B).getD (n + 1) d = B.getD 0 d := by
  subst h
  exact getD_after_middle A B L d

theorem llen_pyGet_text1 (xs : List Line) (i : Int) (v : Line) (h0 : 0 ≤ i)
    (h1 : i < llen xs) :
    pyGet (pyInsertAt xs (i + 1) v) i [] = pyGet xs i [] := by
  rw [pyInsertAt_in xs _ v (by omega) (by omega),
    pyGet_in _ _ _ h0 (by
      unfold llen at h1 ⊢
      rw [List.length_append, List.length_cons, List.length_take, List.length_drop]
      omega),
    pyGet_in xs _ _ h0 h1]
  have hlen : i.toNat < (xs.take (i + 1).toNat).length := by
    rw [List.length_take]
    unfold llen at h1
    omega
  rw [List.getD_append _ _ _ _ hlen, getD_take _ _ _ _ (by omega)]

theorem rowSum_pyInsertAt (w : Int) (xs : List Line) (i : Int) (v : Line) (k : Nat)
    (h0 : 0 ≤ i) (hk : (k : Int) ≤ i) (hkl : k ≤ xs.length) :
    rowSum w (pyInsertAt xs i v) k = rowSum w xs k := by
  unfold pyInsertAt
  dsimp only
  rw [if_pos h0]
  unfold rowSum
  rw [List.take_append_of_le_length (by rw [List.length_take]; omega), List.take_take,
    min_eq_left (by omega)]

theorem inv_newline_aux (cfg : Cfg) (s : TBState) (hw : 0 < cfg.width)
    (hA : s.lcount = s.text.map (rows cfg.width))
    (hB0 : 0 ≤ s.vpos.1) (hB1 : s.vpos.1 < llen s.text)
    (hC0 : 0 ≤ s.vpos.2) (hC1 : s.vpos.2 ≤ llen (lineAt s s.vpos.1))
    (hE0 : 0 ≤ s.ppos.1 + 1)
    (hE1 : s.ppos.1 + 1 ≤
      rowSum cfg.width s.text s.vpos.1.toNat + s.vpos.2 / cfg.width + 1) :
    Inv cfg (newline cfg s) := by
  unfold lineAt at hC1
  unfold newline
  dsimp only
  set cur := pyGet s.text s.vpos.1 [] with hcur
  set SUF := pySliceFrom cur s.vpos.2 with hSUF
  set text1 := pyInsertAt s.text (s.vpos.1 + 1) SUF with htext1
  set PRE := pySliceTo (pyGet text1 s.vpos.1 []) s.vpos.2 with hPRE
  set text2 := pySet text1 s.vpos.1 PRE with htext2
  have hlen1 : llen text1 = llen s.text + 1 := by
    rw [htext1]
    exact llen_pyInsertAt _ _ _
  have hB1' : s.vpos.1 < llen text1 := by omega
  have hlen2 : llen text2 = llen s.text + 1 := by
    rw [htext2, llen_pySet]
    exact hlen1
  have hget1 : pyGet text1 s.vpos.1 [] = cur := by
    rw [htext1, hcur]
    exact llen_pyGet_text1 s.text s.vpos.1 SUF hB0 hB1
  have hget2a : pyGet text2 s.vpos.1 [] = PRE := by
    rw [htext2]
    exact pyGet_pySet_self text1 s.vpos.1 PRE [] hB0 hB1'
  have hkt : (s.vpos.1 + 1).toNat = s.vpos.1.toNat + 1 := by omega
  have htext1c : text1 = s.text.take (s.vpos.1.toNat + 1) ++ SUF ::
      s.text.drop (s.vpos.1.toNat + 1) := by
    rw [htext1, pyInsertAt_in s.text _ _ (by omega) (by omega), hkt]
  have hA1 : (s.text.take (s.vpos.1.toNat + 1)).length = s.vpos.1.toNat + 1 := by
    rw [List.length_take]
    unfold llen at hB1
    omega
  have hA0 : (s.text.take s.vpos.1.toNat).length = s.vpos.1.toNat := by
    rw [List.length_take]
    unfold llen at hB1
    omega
  have htext2c : text2 = s.text.take s.vpos.1.toNat ++ PRE :: SUF ::
      s.text.drop (s.vpos.1.toNat + 1) := by
    rw [htext2, pySet_in _ _ _ hB0 hB1', htext1c]
    congr 1
    · rw [List.take_append_of_le_length (by rw [hA1]; omega), List.take_take,
        min_eq_left (by omega)]
    · congr 1
      exact drop_at_length _ _ _ hA1
  have hget2b : pyGet text2 (s.vpos.1 + 1) [] = SUF := by
    rw [pyGet_in text2 _ _ (by omega) (by omega), hkt, htext2c,
      getD_after_middle_of _ _ _ _ _ hA0]
    rfl
  refine ⟨?_, ⟨?_, ?_⟩, ⟨?_, ?_⟩, ?_, ?_, ?_⟩
  · show pySet (pyInsertAt s.lcount (s.vpos.1 + 1)
        (rows cfg.width (pyGet text2 (s.vpos.1 + 1) []))) s.vpos.1
        (rows cfg.width (pyGet text2 s.vpos.1 [])) = text2.map (rows cfg.width)
    rw [hget2b, hget2a, hA, pyInsertAt_map, pySet_map, htext2, htext1]
  · show 0 ≤ s.vpos.1 + 1
    omega
  · show s.vpos.1 + 1 < llen text2
    omega
  · show (0 : Int) ≤ 0
    exact le_rfl
  · exact llen_nonneg _
  · show (0 : Int) = 0 % cfg.width
    exact (Int.zero_emod _).symm
  · exact hE0
  · show s.ppos.1 + 1 ≤ rowSum cfg.width text2 (s.vpos.1 + 1).toNat + 0 / cfg.width
    rw [hkt, Int.zero_ediv, add_zero,
      rowSum_succ cfg.width text2 s.vpos.1.toNat (by unfold llen at hlen2 hB1; omega)]
    have hgd2 : text2.getD s.vpos.1.toNat ([] : Line) = PRE := by
      rw [← pyGet_in text2 s.vpos.1 ([] : Line) hB0 (by omega), hget2a]
    have hrsum : rowSum cfg.width text2 s.vpos.1.toNat =
        rowSum cfg.width s.text s.vpos.1.toNat := by
      rw [htext2, rowSum_pySet_self cfg.width text1 s.vpos.1 PRE hB0 hB1', htext1,
        rowSum_pyInsertAt cfg.width s.text (s.vpos.1 + 1) SUF s.vpos.1.toNat
          (by omega) (by omega) (by unfold llen at hB1; omega)]
    have hrowsPRE : rows cfg.width PRE = s.vpos.2 / cfg.width + 1 := by
      rw [hPRE, hget1, pySliceTo_in _ _ hC0]
      unfold rows llen
      rw [List.length_take]
      have hmin : min s.vpos.2.toNat cur.length = s.vpos.2.toNat := by
        unfold llen at hC1
        omega
      rw [hmin, Int.toNat_of_nonneg hC0]
    rw [hgd2, hrsum, hrowsPRE]
    linarith

theorem inv_newline_step (cfg : Cfg) (s : TBState) (hw : 0 < cfg.width)
    (hn : cfg.n_sc = 1) (h : Inv cfg s) :
    Inv cfg (newline cfg (if s.ppos.1 = cfg.maxy then scroll cfg cfg.n_sc s else s)) := by
  obtain ⟨hA, ⟨hB0, hB1⟩, ⟨hC0, hC1⟩, hD, hE0, hE1⟩ := h
  unfold absRow at hE1
  split_ifs with hs
  · refine inv_newline_aux cfg (scroll cfg cfg.n_sc s) hw hA hB0 hB1 hC0 hC1 ?_ ?_
    · show 0 ≤ s.ppos.1 - cfg.n_sc + 1
      omega
    · show s.ppos.1 - cfg.n_sc + 1 ≤
        rowSum cfg.width s.text s.vpos.1.toNat + s.vpos.2 / cfg.width + 1
      rw [hn]
      linarith
  · exact inv_newline_aux cfg s hw hA hB0 hB1 hC0 hC1 (by omega) (by linarith)

/-! ### The invariant is inductive along every dispatch -/

theorem inv_step (cfg : Cfg) (s : TBState) (ch : Int) (hw : 0 < cfg.width)
    (hh : 1 ≤ cfg.height) (hn : cfg.n_sc = 1) (h : Inv cfg s) :
    Inv cfg (do_command cfg s ch).1 := by
  by_cases hp : 32 ≤ ch ∧ ch < 127
  · rw [do_command_print cfg s ch hp.1 hp.2]
    exact inv_insert cfg s _ hw hh hn h
  · by_cases hc410 : ch = 410
    · subst hc410
      rw [do_command_resize]
      exact inv_refresh cfg s hw h
    · by_cases hc1 : ch = 1
      · subst hc1
        rw [do_command_front]
        exact inv_front cfg s hw h
      · by_cases hc5 : ch = 5
        · subst hc5
          rw [do_command_end]
          exact inv_end cfg s hw h
        · by_cases hcl : ch = 2 ∨ ch = 260
          · rw [do_command_left cfg s ch hcl]
            exact inv_left cfg s hw hn h
          · by_cases hcr : ch = 6 ∨ ch = 261
            · rw [do_command_right cfg s ch hcr]
              exact inv_right cfg s hw hh hn h
            · by_cases hcd : ch = 14 ∨ ch = 258
              · rw [do_command_down cfg s ch hcd]
                exact inv_down cfg s hw hh hn h
              · by_cases hcu : ch = 16 ∨ ch = 259
                · rw [do_command_up cfg s ch hcu]
                  exact inv_up cfg s hw hn h
                · by_cases hc10 : ch = 10
                  · subst hc10
                    rw [do_command_nl]
                    rcases eq_or_ne cfg.height 1 with hH | hH
                    · rw [if_pos hH]
                      exact h
                    · rw [if_neg hH]
                      exact inv_newline_step cfg s hw hn h
                  · by_cases hc15 : ch = 15
                    · subst hc15
                      rw [do_command_si]
                      exact inv_newline_step cfg s hw hn h
                    · by_cases hc4 : ch = 4
                      · subst hc4
                        rw [do_command_delete]
                        exact inv_delete cfg s hw h
                      · by_cases hcb : ch = 8 ∨ ch = 263 ∨ ch = 127
                        · rw [do_command_backspace cfg s ch hcb]
                          split_ifs with h0
                          · exact h
                          · exact inv_delete cfg (move_left s cfg).1 hw
                              (inv_left cfg s hw hn h)
                        · by_cases hc11 : ch = 11
                          · subst hc11
                            rw [do_command_vt]
                            split_ifs with hz
                            · exact inv_delete cfg s hw h
                            · exact inv_clear_right cfg s hw h
                          · by_cases hc12 : ch = 12
                            · subst hc12
                              rw [do_command_ff]
                              exact inv_refresh cfg s hw h
                            · by_cases hc7 : ch = 7
                              · subst hc7
                                rw [do_command_bel]
                                exact h
                              · rw [do_command_other cfg s ch (by
                                  unfold recognizedCmd
                                  push_neg
                                  omega)]
                                exact h

/-- `__init__` establishes the invariant: `split` never returns an empty
list, the initial `refresh` computes the canonical wrap-row counts, and all
positions start at the origin. -/
theorem inv_init (cfg : Cfg) (t : List Char) (hw : 0 < cfg.width) :
    Inv cfg (mkTextbox cfg t) := by
  have hne : splitNL t ≠ [] := by
    unfold splitNL
    simp [List.splitOn]
    apply List.splitOnP_ne_nil
  have hpos : 0 < llen (splitNL t) := by
    unfold llen
    have := List.length_pos.2 hne
    omega
  have habs : (0 : Int) ≤ rowSum cfg.width (splitNL t) ((0 : Int).toNat) +
      (0 : Int) / cfg.width := by
    rw [Int.zero_ediv]
    simp [rowSum]
  unfold mkTextbox refresh
  split_ifs with hr
  · exact ⟨rfl, ⟨le_rfl, hpos⟩, ⟨le_rfl, llen_nonneg _⟩, (Int.zero_emod _).symm, le_rfl, habs⟩
  · exact ⟨rfl, ⟨le_rfl, hpos⟩, ⟨le_rfl, llen_nonneg _⟩, (Int.zero_emod _).symm, le_rfl, habs⟩

/-- Every reachable state of a widget with positive width, at least one
display row and the default scroll step satisfies the invariant. -/
theorem reach_inv (cfg : Cfg) (s : TBState) (hw : 0 < cfg.width) (hh : 1 ≤ cfg.height)
    (hn : cfg.n_sc = 1) (h : Reachable cfg s) : Inv cfg s := by
  induction h with
  | init t => exact inv_init cfg t hw
  | step s' ch _ ih => exact inv_step cfg s' ch hw hh hn ih

/-- C2 (amended): for every state reachable at positive width, at least one
display row and the default scroll step, the stored wrap-row count of every
logical line is `len(line) // width + 1` (Python 2 floor division) — which
differs from the claimed `max(1, ceil(len/width))` exactly when the length
is a positive multiple of the width. -/
theorem C2_amended (cfg : Cfg) (s : TBState) (hw : 0 < cfg.width) (hh : 1 ≤ cfg.height)
    (hn : cfg.n_sc = 1) (hr : Reachable cfg s) (i : Int) (h0 : 0 ≤ i)
    (h1 : i < llen s.text) :
    pyGet s.lcount i 0 = llen (lineAt s i) / cfg.width + 1 := by
  have hinv := reach_inv cfg s hw hh hn hr
  rw [lcount_get cfg s hinv.1 i h0 h1]
  rfl

theorem C2_amended_witness :
    0 < cfgC2.width ∧ 1 ≤ cfgC2.height ∧ cfgC2.n_sc = 1 ∧ (0 : Int) ≤ 0 ∧
      (0 : Int) < llen sC2.text ∧
      pyGet sC2.lcount 0 0 = llen (lineAt sC2 0) / cfgC2.width + 1 := by
  refine ⟨by decide, by decide, by decide, by decide, by decide, ?_⟩
  exact C2_amended cfgC2 sC2 (by decide) (by decide) (by decide)
    (Reachable.step _ 99 (Reachable.step _ 98 (Reachable.step _ 97 (Reachable.init _))))
    0 (by decide) (by decide)

/-- C5: in every reachable state (positive width, at least one display row,
default scroll step) with the virtual cursor at (0,0), dispatching either
move-left binding returns the state unchanged with return value 1 and the
beep; with the cursor at the last column of the last logical line,
dispatching either move-right binding likewise returns the state unchanged
with the beep. -/
theorem C5_boundary_noop (cfg : Cfg) (s : TBState) (hw : 0 < cfg.width)
    (hh : 1 ≤ cfg.height) (hn : cfg.n_sc = 1) (hr : Reachable cfg s) :
    (s.vpos = (0, 0) →
      do_command cfg s 2 = (s, 1, true) ∧ do_command cfg s 260 = (s, 1, true)) ∧
      (s.vpos.1 = llen s.text - 1 ∧ s.vpos.2 = llen (lineAt s s.vpos.1) →
        do_command cfg s 6 = (s, 1, true) ∧ do_command cfg s 261 = (s, 1, true)) := by
  obtain ⟨hA, ⟨hB0, hB1⟩, ⟨hC0, hC1⟩, hD, hE0, hE1⟩ := reach_inv cfg s hw hh hn hr
  constructor
  · intro hv
    have hv1 : s.vpos.1 = 0 := by rw [hv]
    have hv2 : s.vpos.2 = 0 := by rw [hv]
    have hp2 : s.ppos.2 = 0 := by
      rw [hD, hv2]
      exact Int.zero_emod _
    have hml : move_left s cfg = (s, true) := by
      unfold move_left
      rw [if_neg (show ¬s.ppos.2 > 0 by omega), if_pos ⟨hv1, hv2⟩]
    constructor
    · rw [do_command_left cfg s 2 (Or.inl rfl), hml]
    · rw [do_command_left cfg s 260 (Or.inr rfl), hml]
  · rintro ⟨hr1, hr2⟩
    have hmr : move_right s cfg = (s, true) := by
      unfold move_right
      dsimp only
      rw [if_neg (show ¬(s.ppos.2 < cfg.maxx ∧ s.vpos.2 < llen (lineAt s s.vpos.1)) by
          omega),
        if_pos ⟨by omega, hr2⟩]
    constructor
    · rw [do_command_right cfg s 6 (Or.inl rfl), hmr]
    · rw [do_command_right cfg s 261 (Or.inr rfl), hmr]

theorem C5_witness :
    do_command cfgC5 (mkTextbox cfgC5 []) 2 = (mkTextbox cfgC5 [], 1, true) ∧
      do_command cfgC5 (mkTextbox cfgC5 []) 261 = (mkTextbox cfgC5 [], 1, true) :=
  ⟨((C5_boundary_noop cfgC5 (mkTextbox cfgC5 []) (by decide) (by decide) (by decide)
      (Reachable.init [])).1 (by decide)).1,
   ((C5_boundary_noop cfgC5 (mkTextbox cfgC5 []) (by decide) (by decide) (by decide)
      (Reachable.init [])).2 (by decide)).2⟩

end Texteditpad
